import Mathlib

/-!
Verification of the minja template engine (single header
src/include/minja/minja.hpp) against its natural-language specification.

The development shallowly embeds the engine's data model and evaluator:

* `Prim` embeds the header's `json` class (minja.hpp:49-149): a tagged
  primitive whose payload fields `mString`, `mInt`, `mDouble`, `mBool` are
  written only by the constructor of the corresponding variant.  Reading a
  field of a variant that did not initialize it (e.g. `get<double>()` on a
  `JSON_INT64` value) is a read of an indeterminate value in the C++ source;
  the embedding models such reads as `none`.
* `Val` embeds `Value` (minja.hpp:171-672).  Arrays, objects and callables
  are `shared_ptr` handles in the source; the embedding represents them as
  indices into a `Store`, giving the same reference semantics.
* `Store` holds the heap: array contents, object contents (an object is a
  `std::map<std::string, Value>`, i.e. an association list kept sorted by
  key), closures, and `Context` frames.
* The evaluator (`evalF`, `renderF`, ...) embeds the `do_evaluate`/`render`
  methods of the Expression subclasses.  All functions are fueled; `none`
  means the computation ran out of fuel or reached behaviour that the
  source leaves undefined or that this model does not cover (noted at each
  spot).  C++ floating point (`double`) is modelled by `ℚ`; strings are
  compared byte-wise in the source and character-wise here, which agrees on
  the ASCII data used below.
-/

namespace Minja

/-- The `json` primitive class (minja.hpp:49-149).  Exactly one variant is
active; payload fields of the other variants are uninitialized. -/
inductive Prim where
  | null
  | jbool (b : Bool)
  | jint (n : Int)
  | jfloat (q : ℚ)
  | jstr (s : String)
deriving DecidableEq, Repr

/-- `json::get(double&)` returns `mDouble` (minja.hpp:130-132), which is
written only by the `json(double)` constructor; for every other variant the
field is uninitialized and the read has no defined result. -/
def Prim.getDouble : Prim → Option ℚ
  | .jfloat q => some q
  | _ => none

/-- `json::get(int64_t&)` returns `mInt` (minja.hpp:121-123), initialized
only by the `json(int64_t)` constructor. -/
def Prim.getInt : Prim → Option Int
  | .jint n => some n
  | _ => none

/-- `json::get(bool&)` returns `mBool` (minja.hpp:115-117), initialized only
by the `json(bool)` constructor. -/
def Prim.getBool : Prim → Option Bool
  | .jbool b => some b
  | _ => none

/-- `json::operator==` (minja.hpp:86-103): mismatching types compare false;
`JSON_NULL` values compare true via the default case. -/
def Prim.eqb : Prim → Prim → Bool
  | .null, .null => true
  | .jbool a, .jbool b => a == b
  | .jint a, .jint b => a == b
  | .jfloat a, .jfloat b => a == b
  | .jstr a, .jstr b => a == b
  | _, _ => false

/-- The primitive part of `Value::to_bool` (minja.hpp:443-450).  A number is
tested with `get<double>() != 0`, which for an Integer value reads the
uninitialized `mDouble` field: no defined result. -/
def Prim.toBool : Prim → Option Bool
  | .null => some false
  | .jbool b => some b
  | .jint _ => none
  | .jfloat q => some (decide (q ≠ 0))
  | .jstr s => some (!s.isEmpty)

/-- `std::to_string` on a double prints six fixed decimals; the embedding
rounds half away from zero, a rounding-mode detail no claim exercises. -/
def ratToStr6 (q : ℚ) : String :=
  let scaled : Int := if q ≥ 0 then ⌊q * 1000000 + 1/2⌋ else -⌊(-q) * 1000000 + 1/2⌋
  let whole : Int := scaled / 1000000
  let frac : Int := (if scaled ≥ 0 then scaled else -scaled) % 1000000
  let fracStr := toString frac
  let pad := String.mk (List.replicate (6 - fracStr.length) '0')
  toString whole ++ "." ++ pad ++ fracStr

/-- The primitive part of `Value::to_str` (minja.hpp:617-624). -/
def Prim.toStr : Prim → String
  | .null => ""
  | .jbool b => if b then "True" else "False"
  | .jint n => toString n
  | .jfloat q => ratToStr6 q
  | .jstr s => s

/-- `SpaceHandling` (minja.hpp:916). -/
inductive SpaceHandling where
  | keep
  | strip
  | stripSpaces
  | stripNewline
deriving DecidableEq, Repr

/-- `LoopControlType` (minja.hpp:827). -/
inductive LoopCtl where
  | normal
  | breakC
  | continueC
deriving DecidableEq, Repr

/-- A `Value` (minja.hpp:171-672).  Arrays, objects and callables are
`shared_ptr` handles; here they are indices into the `Store`, so copying a
`Val` copies the handle, exactly as copying a `Value` copies the pointer.
A callable `Value` also carries a freshly allocated empty object
(minja.hpp:187) which nothing ever mutates; the embedding represents a
callable by its closure index alone and treats its object part as the
constant empty object where it is observable (`size`, `dump`). -/
inductive Val where
  | prim (p : Prim)
  | arr (id : Nat)
  | obj (id : Nat)
  | fnc (id : Nat)
deriving DecidableEq, Repr

/-- The `json primitive_` field of a `Value`: containers and callables leave
it default-constructed, i.e. `JSON_NULL`. -/
def Val.primitive : Val → Prim
  | .prim p => p
  | _ => .null

/-- `Value::get<double>()` reads `primitive_` regardless of which handle (if
any) is set. -/
def Val.getDouble (v : Val) : Option ℚ := v.primitive.getDouble

/-- `Value::get<int64_t>()`. -/
def Val.getInt (v : Val) : Option Int := v.primitive.getInt

/-- Binary operators of `BinaryOpExpr::Op` (minja.hpp:1310) that the claims
exercise. -/
inductive BinOp where
  | orB
  | divB
  | divdivB
  | modB
  | eqB
deriving DecidableEq, Repr

/-- The AST.  In this source every node — expression or statement — is an
`Expression` subclass with both `do_evaluate` and `render` (minja.hpp:829
onward); the constructors below embed the subclasses the claims touch:
`LiteralExpr`, `VariableExpr`, `ArrayExpr`, `BinaryOpExpr`,
`MethodCallExpr`, `CallExpr`, `FilterExpr`, `TextExpr`, `SequenceExpr`,
`ForExpr`, `MacroDeclExpr`, `SetVarExpr`, `LoopControlExpr`.
`CallExpr`/`MethodCallExpr` arguments are modelled positionally; keyword
arguments reach closures through `ArgsV` directly (`applyClosureF`), and no
claim builds a keyword argument or a `*`/`**` expansion syntactically. -/
inductive Exp where
  | lit (p : Prim)
  | varE (name : String)
  | arrayLit (elems : List Exp)
  | binop (op : BinOp) (l r : Exp)
  | methodCall (obj : Exp) (method : String) (args : List Exp)
  | callE (f : Exp) (args : List Exp)
  | filt (parts : List Exp)
  | textE (s : String)
  | seqE (children : List Exp)
  | forE (varNames : List String) (iterable : Exp) (cond : Option Exp)
      (body : Exp) (rec? : Bool) (elseBody : Option Exp)
  | mcrDecl (name : String) (params : List (String × Option Exp)) (body : Exp)
  | setVar (ns : String) (varNames : List String) (value : Exp)
  | loopCtl (c : LoopCtl)

/-- `ArgumentsValue` (minja.hpp:674-716). -/
structure ArgsV where
  args : List Val
  kwargs : List (String × Val)
deriving DecidableEq, Repr

/-- Builtin functions registered by `Context::builtins`
(minja.hpp:3252-3647), one tag per `Value::callable` allocation; `escape`
is also bound as `e` and `equalto` also as `==`, sharing the callable. -/
inductive BName where
  | tojson | items | last | trim | lower | upper | dflt | escape | joiner
  | count | dictsort | join | nspace | equalto | length | safe | stringB
  | intB | listB | unique | select | reject | mapB | indent | selectattr
  | rejectattr | range
deriving DecidableEq, Repr

/-- A `CallableType` closure (`std::function` payload of a callable
`Value`).  `mcr` is the lambda installed by `MacroDeclExpr::render`
(minja.hpp:1935-1976), capturing the declaration and the definition-site
context; `builtin` are the `Context::builtins` closures; `loopSelf` and
`cycleC` are the loop-local lambdas of `ForExpr::render` (minja.hpp:1861,
1892), which no claim invokes — calling them is outside the model. -/
inductive Closure where
  | builtin (b : BName)
  | mcr (name : String) (params : List (String × Option Exp)) (body : Exp)
      (defCtx : Nat)
  | loopSelf
  | cycleC

/-- A `Context` frame (minja.hpp:769-820): `values_` is an object `Value`
(here: the index of its contents in the object store) plus a parent
pointer.  Frames are never mutated after construction; `Context::set`
mutates the values object. -/
structure CtxFrame where
  values : Nat
  parent : Option Nat
deriving DecidableEq, Repr

/-- The heap: contents of all arrays, objects, closures and context frames.
An object is a `std::map<std::string, Value>` (minja.hpp:177), embedded as
an association list kept sorted by key. -/
structure Store where
  arrays : List (List Val)
  objects : List (List (String × Val))
  closures : List Closure
  ctxs : List CtxFrame

/-- `std::string::operator<`: lexicographic comparison, element-wise.  The
source compares bytes; the model compares characters by code point, which
agrees on the ASCII keys every claim uses. -/
def charsLt : List Char → List Char → Bool
  | [], [] => false
  | [], _ :: _ => true
  | _ :: _, [] => false
  | a :: as, b :: bs =>
    if a.toNat < b.toNat then true
    else if b.toNat < a.toNat then false
    else charsLt as bs

/-- String comparison as used by `std::map<std::string, Value>`. -/
def strLtB (a b : String) : Bool := charsLt a.data b.data

/-- Insertion into a `std::map<std::string, Value>` via `(*object_)[key] =
value` (minja.hpp:388): replaces the value of an existing key, otherwise
inserts at the position determined by `std::string::operator<`. -/
def objInsert : List (String × Val) → String → Val → List (String × Val)
  | [], k, v => [(k, v)]
  | (k', v') :: rest, k, v =>
    if strLtB k k' then (k, v) :: (k', v') :: rest
    else if k == k' then (k, v) :: rest
    else (k', v') :: objInsert rest k v

/-- `std::map::find`-style lookup used by `Value::contains` /
`Value::at` on objects. -/
def lookupAssoc (es : List (String × Val)) (k : String) : Option Val :=
  (es.find? (fun e => e.1 == k)).map (·.2)

/-- Whether an object contains a key (`object_->find(key) != end()`,
minja.hpp:519). -/
def hasKey (es : List (String × Val)) (k : String) : Bool :=
  es.any (fun e => e.1 == k)

/-- `Value::set` on the object at index `oid` (minja.hpp:383-389); an
out-of-range index models the logged-and-ignored non-object case. -/
def Store.setObj (st : Store) (oid : Nat) (k : String) (v : Val) : Store :=
  { st with objects := st.objects.modify (fun es => objInsert es k v) oid }

/-- Allocate a fresh object (`Value::object()`), returning its index. -/
def Store.allocObj (st : Store) (es : List (String × Val)) : Store × Nat :=
  ({ st with objects := st.objects ++ [es] }, st.objects.length)

/-- Allocate a fresh array (`Value::array()`), returning its index. -/
def Store.allocArr (st : Store) (vs : List Val) : Store × Nat :=
  ({ st with arrays := st.arrays ++ [vs] }, st.arrays.length)

/-- Allocate a closure (`Value::callable`), returning its index. -/
def Store.allocClosure (st : Store) (c : Closure) : Store × Nat :=
  ({ st with closures := st.closures ++ [c] }, st.closures.length)

/-- `Value::push_back` through an array handle (minja.hpp:330-334). -/
def Store.pushArr (st : Store) (aid : Nat) (v : Val) : Store :=
  { st with arrays := st.arrays.modify (fun vs => vs ++ [v]) aid }

/-- `Context::make(Value::object(), parent)` (minja.hpp:3649-3651):
allocates a fresh empty values object and a frame pointing at `parent`. -/
def Store.ctxMake (st : Store) (parent : Option Nat) : Store × Nat :=
  let (st1, oid) := st.allocObj []
  ({ st1 with ctxs := st1.ctxs ++ [⟨oid, parent⟩] }, st1.ctxs.length)

/-- The values-object index of a context frame. -/
def Store.ctxValues (st : Store) (cid : Nat) : Option Nat :=
  (st.ctxs.get? cid).map (·.values)

/-- `Context::set` (minja.hpp:817-819): writes into the frontmost scope's
values object. -/
def Store.ctxSet (st : Store) (cid : Nat) (k : String) (v : Val) :
    Option Store := do
  let voi ← st.ctxValues cid
  pure (st.setObj voi k v)

/-- `Context::contains(string)` (minja.hpp:812-816), fueled against parent
cycles (the source would not terminate on one). -/
def ctxContains : Nat → Store → Nat → String → Option Bool
  | 0, _, _, _ => none
  | f + 1, st, cid, k => do
    let frame ← st.ctxs.get? cid
    let es ← st.objects.get? frame.values
    if hasKey es k then pure true
    else
      match frame.parent with
      | some p => ctxContains f st p k
      | none => pure false

/-- `Context::get(string)` (minja.hpp:791-795): own scope first, then the
parent chain, `Value()` when absent everywhere. -/
def ctxGet : Nat → Store → Nat → String → Option Val
  | 0, _, _, _ => none
  | f + 1, st, cid, k => do
    let frame ← st.ctxs.get? cid
    let es ← st.objects.get? frame.values
    match lookupAssoc es k with
    | some v => pure v
    | none =>
      match frame.parent with
      | some p => ctxGet f st p k
      | none => pure (.prim .null)

/-- `Value::to_bool` (minja.hpp:443-450).  Order of the checks as in the
source: null, boolean, number (a `get<double>()` read, undefined for
Integer values), string, array; objects and callables reach the final
`return true`. -/
def toBoolV (st : Store) : Val → Option Bool
  | .prim p => p.toBool
  | .arr aid => (st.arrays.get? aid).map (fun vs => !vs.isEmpty)
  | .obj _ => some true
  | .fnc _ => some true

/-- `Value::size` (minja.hpp:303-309): object size, array size, string
length; any other value logs and returns 0.  A callable carries an empty
object, so `is_object()` is true and its size is 0. -/
def sizeVal (st : Store) : Val → Option Nat
  | .obj oid => (st.objects.get? oid).map List.length
  | .fnc _ => some 0
  | .arr aid => (st.arrays.get? aid).map List.length
  | .prim (.jstr s) => some s.length
  | .prim _ => some 0

mutual

/-- `Value::operator==` (minja.hpp:486-508).  The callable identity check
comes first; an array comparison requires equal sizes and then runs the
element loop; an object comparison requires equal sizes and runs the entry
loop; primitives compare via `json::operator==`.  A callable `Value` also
holds an (empty) object, so two identical callables fall through to the
object loop and compare true.  Fueled because arrays can reach themselves
through the store (the source would not terminate on such values). -/
def valueEqF : Nat → Store → Val → Val → Option Bool
  | 0, _, _, _ => none
  | f + 1, st, l, r =>
    match l, r with
    | .fnc i, .fnc j => if i = j then some true else some false
    | .fnc _, _ => some false
    | _, .fnc _ => some false
    | .arr i, .arr j => do
      let ls ← st.arrays.get? i
      let rs ← st.arrays.get? j
      if ls.length = rs.length then valueEqListF f st ls rs else pure false
    | .arr _, _ => some false
    | .obj i, .obj j => do
      let les ← st.objects.get? i
      let res ← st.objects.get? j
      if les.length = res.length then valueEqEntriesF f st les res
      else pure false
    | .obj _, _ => some false
    | .prim p, r' => some (p.eqb r'.primitive)
termination_by structural f _ _ _ => f

/-- The element loop of the array case of `Value::operator==`
(minja.hpp:493-495); it runs behind the size-equality check, so the
mismatched-length cases are unreachable (`none`). -/
def valueEqListF : Nat → Store → List Val → List Val → Option Bool
  | 0, _, _, _ => none
  | _ + 1, _, [], [] => some true
  | _ + 1, _, [], _ :: _ => none
  | _ + 1, _, _ :: _, [] => none
  | f + 1, st, lv :: ls, rv :: rs => do
    let tb1 ← toBoolV st lv
    if !tb1 then pure false
    else do
      let tb2 ← toBoolV st rv
      if !tb2 then pure false
      else do
        let e ← valueEqF f st lv rv
        if !e then pure false
        else valueEqListF f st ls rs
termination_by structural f _ _ _ => f

/-- The entry loop of the object case of `Value::operator==`
(minja.hpp:500-502), iterating the left object's entries; `at` on the right
object runs behind the `count` check, so a missing key is unreachable. -/
def valueEqEntriesF : Nat → Store → List (String × Val) →
    List (String × Val) → Option Bool
  | 0, _, _, _ => none
  | _ + 1, _, [], _ => some true
  | f + 1, st, (k, v) :: ls, res => do
    let tb ← toBoolV st v
    if !tb then pure false
    else if !hasKey res k then pure false
    else do
      let rv ← match lookupAssoc res k with
               | some rv => pure rv
               | none => none
      let e ← valueEqF f st v rv
      if !e then pure false
      else valueEqEntriesF f st ls res
termination_by structural f _ _ _ => f

end

/-- `Value::operator/` (minja.hpp:664-667): true division.  The zero check
and both operand reads go through `get<double>()`, defined only for Float
values; on a zero divisor it logs "Division by zero" and returns
`Value()` — a Null value, not an error. -/
def valDiv (l r : Val) : Option Val := do
  let rd ← r.getDouble
  if rd = 0 then pure (.prim .null)
  else do
    let ld ← l.getDouble
    pure (.prim (.jfloat (ld / rd)))

/-- `Value::operator%` (minja.hpp:668-671): both reads go through
`get<int64_t>()`, defined only for Integer values; on a zero divisor it
logs "Modulo by zero" and returns `Value()`.  The nonzero case is C++
`int64_t %`, i.e. truncated remainder (`Int.tmod`). -/
def valMod (l r : Val) : Option Val := do
  let ri ← r.getInt
  if ri = 0 then pure (.prim .null)
  else do
    let li ← l.getInt
    pure (.prim (.jint (Int.tmod li ri)))

/-- `Op::DivDiv` of `BinaryOpExpr::do_evaluate` (minja.hpp:1379-1382):
checks `r.get<double>() == 0` (logging "Floor division by zero" and
returning Null), otherwise returns `std::floor(l.get<double>() /
r.get<double>())`, a `double` wrapped as a Float value.  Both reads are
defined only for Float operands; for Integer operands they read the
uninitialized `mDouble` field. -/
def valDivDiv (l r : Val) : Option Val := do
  let rd ← r.getDouble
  if rd = 0 then pure (.prim .null)
  else do
    let ld ← l.getDouble
    pure (.prim (.jfloat (⌊ld / rd⌋ : Int)))

/-- The item sequence produced by `Value::for_each` (minja.hpp:421-441):
array elements in order, object keys in `std::map` order as string values,
string characters as one-character strings; anything else is not
iterable. -/
def forEachVals (st : Store) : Val → Option (List Val)
  | .arr aid => st.arrays.get? aid
  | .obj oid => (st.objects.get? oid).map
      (fun es => es.map (fun e => Val.prim (.jstr e.1)))
  | .prim (.jstr s) =>
      some (s.toList.map (fun c => Val.prim (.jstr (String.mk [c]))))
  | _ => none

/-- `Value::is_iterable` (minja.hpp:407). -/
def isIterable : Val → Bool
  | .arr _ => true
  | .obj _ => true
  | .prim (.jstr _) => true
  | _ => false

/-- `Value::to_str` (minja.hpp:617-624).  For containers it falls back to
`dump()`, which no claim exercises; the model leaves it uncovered (`none`).
A callable dumps as its empty object. -/
def toStrV : Val → Option String
  | .prim p => some p.toStr
  | .fnc _ => some "{}"
  | _ => none

/-- The body shared by the `render` overrides of the expression nodes
(e.g. minja.hpp:884-895): a Null result emits nothing, a Bool emits
`True`/`False`, anything else emits `to_str()`. -/
def renderVal (v : Val) : Option String :=
  match v with
  | .prim .null => some ""
  | .prim (.jbool b) => some (if b then "True" else "False")
  | v' => toStrV v'

/-- `destructuring_assign` (minja.hpp:898-914): one name binds the whole
item; several names require an Array item of matching size, otherwise the
mismatch is logged and every name is bound to Null. -/
def destructAssign (st : Store) (cid : Nat) (names : List String)
    (item : Val) : Option Store :=
  match names with
  | [n] => st.ctxSet cid n item
  | _ =>
    let ok : Option Bool := match item with
      | .arr aid => (st.arrays.get? aid).map
          (fun vs => vs.length == names.length)
      | _ => some false
    match ok with
    | none => none
    | some false =>
      names.foldlM (fun (s : Store) n => s.ctxSet cid n (.prim .null)) st
    | some true =>
      match item with
      | .arr aid => do
        let vs ← st.arrays.get? aid
        (names.zip vs).foldlM
          (fun (s : Store) (p : String × Val) => s.ctxSet cid p.1 p.2) st
      | _ => none

/-- The argument-object construction of `simple_function`
(minja.hpp:3221-3250): positional arguments are bound to parameter names in
declaration order (extras are logged and dropped), then keyword arguments
are bound by name (unknown names are logged and dropped).  The object is a
`Value::object()`, hence key-sorted. -/
def simpleBind (params : List String) (a : ArgsV) : List (String × Val) :=
  let pos := ((params.zip a.args).foldl
    (fun es pv => objInsert es pv.1 pv.2) [])
  a.kwargs.foldl
    (fun es kv => if params.contains kv.1 then objInsert es kv.1 kv.2 else es)
    pos

/-- `Value::is_null` (minja.hpp:401). -/
def isNullV : Val → Bool
  | .prim .null => true
  | _ => false

/-- The builtins callable bodies (`Context::builtins`).  The only builtin
behaviour a claim exercises is `length` (minja.hpp:3403-3406):
`simple_function` binds the argument object, `args.at("items")` fetches the
sequence (`std::map::at` would throw if it were absent), and the result is
`Value((int64_t) items.size())`.  Calls to the other builtins are outside
the model (`none`); claim C2 is about their bindings, not their
behaviour. -/
def applyBuiltinF (st : Store) (a : ArgsV) : BName → Option (Store × Val)
  | .length => do
    let argsObj := simpleBind ["items"] a
    let itemsV ← lookupAssoc argsObj "items"
    let n ← sizeVal st itemsV
    pure (st, .prim (.jint n))
  | _ => none

/-- The positional-binding loop of the macro closure
(minja.hpp:1940-1947): arguments are bound to parameter names in
declaration order into the execution context; extras are logged and
dropped.  Returns the `param_set` flags. -/
def bindPositional (st : Store) (execCid : Nat)
    (params : List (String × Option Exp)) (args : List Val) :
    Option (Store × List Bool) := do
  let st' ← (params.zip args).foldlM
    (fun (s : Store) (pv : (String × Option Exp) × Val) =>
      s.ctxSet execCid pv.1.1 pv.2) st
  pure (st', (List.range params.length).map (fun i => i < args.length))

/-- The keyword-binding loop of the macro closure (minja.hpp:1949-1961):
unknown names and names already bound positionally are logged and
skipped. -/
def bindKw (st : Store) (execCid : Nat)
    (params : List (String × Option Exp)) (flags : List Bool)
    (kwargs : List (String × Val)) : Option (Store × List Bool) :=
  kwargs.foldlM
    (fun (sf : Store × List Bool) (kv : String × Val) =>
      match params.findIdx? (fun p => p.1 == kv.1) with
      | none => some sf
      | some j =>
        if sf.2.getD j false then some sf
        else do
          let s' ← sf.1.ctxSet execCid kv.1 kv.2
          pure (s', sf.2.set j true))
    (st, flags)

mutual

/-- The `do_evaluate` overrides (minja.hpp:878 onward), dispatching on the
node kind exactly as the subclasses do.  Rendering a bare array literal
goes through `dump()` and methods other than `append` on arrays are not
needed by any claim; both are outside the model (`none`). -/
def evalF : Nat → Store → Nat → Exp → Option (Store × Val)
  | 0, _, _, _ => none
  | f + 1, st, cid, e =>
    match e with
    | .lit p => some (st, .prim p)
    | .varE n => do
      let b ← ctxContains f st cid n
      if b then do
        let v ← ctxGet f st cid n
        pure (st, v)
      else pure (st, .prim .null)
    | .arrayLit es => do
      let (st1, vs) ← evalListF f st cid es
      let (st2, aid) := st1.allocArr vs
      pure (st2, .arr aid)
    | .binop op l r => do
      let (st1, lv) ← evalF f st cid l
      match op with
      | .orB => do
        let tb ← toBoolV st1 lv
        if tb then pure (st1, lv) else evalF f st1 cid r
      | _ => do
        let (st2, rv) ← evalF f st1 cid r
        match op with
        | .divB => do let v ← valDiv lv rv; pure (st2, v)
        | .divdivB => do let v ← valDivDiv lv rv; pure (st2, v)
        | .modB => do let v ← valMod lv rv; pure (st2, v)
        | .eqB => do
          let b ← valueEqF f st2 lv rv
          pure (st2, .prim (.jbool b))
        | .orB => none
    | .methodCall obj m args => do
      let (st1, ov) ← evalF f st cid obj
      let (st2, avs) ← evalListF f st1 cid args
      if isNullV ov then
        -- logs "Trying to call method ... on null" and returns Value()
        pure (st2, .prim .null)
      else
        match ov, m, avs with
        | .arr aid, "append", v :: _ =>
          -- minja.hpp:1525-1528: push_back through the shared handle,
          -- returning Null
          pure (st2.pushArr aid v, .prim .null)
        | _, _, _ => none
    | .callE fe args => do
      let (st1, fv) ← evalF f st cid fe
      match fv with
      | .fnc cl => do
        let (st2, avs) ← evalListF f st1 cid args
        applyClosureF f st2 cid cl ⟨avs, []⟩
      | _ =>
        -- minja.hpp:1650-1653: logs "Object is not callable", returns
        -- Value() without evaluating the arguments
        pure (st1, .prim .null)
    | .filt parts =>
      match parts with
      | [] => some (st, .prim .null)
      | p0 :: rest => do
        let (st1, v0) ← evalF f st cid p0
        filterFoldF f st1 cid v0 rest
    | .textE s => some (st, .prim (.jstr s))
    | .seqE _ => some (st, .prim .null)
    | .forE _ _ _ _ _ _ => some (st, .prim .null)
    | .mcrDecl _ _ _ => some (st, .prim .null)
    | .setVar _ _ _ => some (st, .prim .null)
    | .loopCtl _ => some (st, .prim .null)
termination_by structural f _ _ _ => f

/-- Left-to-right evaluation of an expression list (the positional part of
`ArgumentsExpression::evaluate`, minja.hpp:1417-1449, and the element loop
of `ArrayExpr::do_evaluate`). -/
def evalListF : Nat → Store → Nat → List Exp → Option (Store × List Val)
  | 0, _, _, _ => none
  | _ + 1, st, _, [] => some (st, [])
  | f + 1, st, cid, e :: es => do
    let (st1, v) ← evalF f st cid e
    let (st2, vs) ← evalListF f st1 cid es
    pure (st2, v :: vs)
termination_by structural f _ _ _ => f

/-- The pipe loop of `FilterExpr::do_evaluate` (minja.hpp:1679-1705): each
part is either a call (the filter gets the current value prepended to its
arguments) or a plain expression (the filter gets the current value as only
argument); a non-callable filter is logged and the whole filter expression
yields Value(). -/
def filterFoldF : Nat → Store → Nat → Val → List Exp → Option (Store × Val)
  | 0, _, _, _, _ => none
  | _ + 1, st, _, cur, [] => some (st, cur)
  | f + 1, st, cid, cur, p :: rest =>
    match p with
    | .callE fe args => do
      let (st1, fv) ← evalF f st cid fe
      match fv with
      | .fnc cl => do
        let (st2, avs) ← evalListF f st1 cid args
        let (st3, nv) ← applyClosureF f st2 cid cl ⟨cur :: avs, []⟩
        filterFoldF f st3 cid nv rest
      | _ => pure (st1, .prim .null)
    | _ => do
      let (st1, fv) ← evalF f st cid p
      match fv with
      | .fnc cl => do
        let (st2, nv) ← applyClosureF f st1 cid cl ⟨[cur], []⟩
        filterFoldF f st2 cid nv rest
      | _ => pure (st1, .prim .null)
termination_by structural f _ _ _ _ => f

/-- `Value::call` on a closure.  A macro closure (minja.hpp:1935-1976)
makes a fresh child of the definition-site context, binds positional and
keyword arguments there, evaluates defaults of unbound parameters in the
definition context, renders the body into a string and returns it. -/
def applyClosureF : Nat → Store → Nat → Nat → ArgsV → Option (Store × Val)
  | 0, _, _, _, _ => none
  | f + 1, st, _callerCid, cl, a => do
    let c ← st.closures.get? cl
    match c with
    | .builtin b => applyBuiltinF st a b
    | .mcr _ params body defCtx => do
      let (st1, execCid) := st.ctxMake (some defCtx)
      let (st2, flags) ← bindPositional st1 execCid params a.args
      let (st3, flags2) ← bindKw st2 execCid params flags a.kwargs
      let st4 ← bindDefaultsF f st3 execCid defCtx (params.zip flags2)
      let (st5, out, _) ← renderF f st4 execCid body
      pure (st5, .prim (.jstr out))
    | .loopSelf => none
    | .cycleC => none
termination_by structural f _ _ _ _ => f

/-- The default-binding loop of the macro closure (minja.hpp:1963-1971):
an unbound parameter takes its default evaluated in the definition
context, or Null when it has none. -/
def bindDefaultsF : Nat → Store → Nat → Nat →
    List ((String × Option Exp) × Bool) → Option Store
  | 0, _, _, _, _ => none
  | _ + 1, st, _, _, [] => some st
  | f + 1, st, execCid, defCtx, (p, wasSet) :: rest => do
    let st' ←
      if wasSet then pure st
      else
        match p.2 with
        | some d => do
          let (s, v) ← evalF f st defCtx d
          s.ctxSet execCid p.1 v
        | none => st.ctxSet execCid p.1 (.prim .null)
    bindDefaultsF f st' execCid defCtx rest
termination_by structural f _ _ _ _ => f

/-- The `render` overrides (minja.hpp:869 onward).  Statement nodes follow
their subclass logic; expression nodes evaluate and emit Null as nothing,
Bool as True/False and the rest through `to_str`. -/
def renderF : Nat → Store → Nat → Exp → Option (Store × String × LoopCtl)
  | 0, _, _, _ => none
  | f + 1, st, cid, e =>
    match e with
    | .textE s => some (st, s, .normal)
    | .seqE cs => renderSeqF f st cid cs
    | .loopCtl c => some (st, "", c)
    | .mcrDecl name params body =>
      -- minja.hpp:1929-1979: allocate the closure over the current
      -- (definition) context and bind it to the macro name
      let (st1, cl) := st.allocClosure (.mcr name params body cid)
      (st1.ctxSet cid name (.fnc cl)).map (fun st2 => (st2, "", .normal))
    | .setVar ns names value => do
      let (st1, v) ← evalF f st cid value
      if ns = "" then do
        let st2 ← destructAssign st1 cid names v
        pure (st2, "", .normal)
      else
        match names with
        | [n] => do
          let nsv ← ctxGet f st1 cid ns
          match nsv with
          | .obj oid => pure (st1.setObj oid n v, "", .normal)
          | _ =>
            -- logs "Namespace ... is not an object", renders nothing
            pure (st1, "", .normal)
        | _ =>
          -- logs "Namespaced set only supports a single variable name"
          pure (st1, "", .normal)
    | .forE vn it cond body rec? elseB => do
      let (st1, itv) ← evalF f st cid it
      let (st2, filtered) ←
        if !(isNullV itv) && isIterable itv then do
          let items ← forEachVals st1 itv
          buildFilteredF f st1 cid vn cond items
        else pure (st1, [])
      if filtered.isEmpty then
        match elseB with
        | some eb => renderF f st2 cid eb
        | none => some (st2, "", .normal)
      else
        let (st3, loopOid) := st2.allocObj []
        let st4 :=
          if rec? then
            let (s, cl) := st3.allocClosure .loopSelf
            s.setObj loopOid "self" (.fnc cl)
          else st3
        let (st5, loopCid) := st4.ctxMake (some cid)
        match st5.ctxSet loopCid "loop" (.obj loopOid) with
        | none => none
        | some st6 =>
          let st7 := st6.setObj loopOid "length"
            (.prim (.jint filtered.length))
          let (st8, cyc) := st7.allocClosure .cycleC
          let st9 := st8.setObj loopOid "cycle" (.fnc cyc)
          forItemsF f st9 loopCid loopOid vn body filtered 0
    | .arrayLit _ => none
    | other => do
      let (st1, v) ← evalF f st cid other
      match v with
      | .prim .null => pure (st1, "", .normal)
      | .prim (.jbool b) =>
        pure (st1, (if b then "True" else "False"), .normal)
      | v' => do
        let out ← toStrV v'
        pure (st1, out, .normal)
termination_by structural f _ _ _ => f

/-- `SequenceExpr::render` (minja.hpp:1751-1761): children render in
order; a non-Normal control propagates immediately with the output
produced so far. -/
def renderSeqF : Nat → Store → Nat → List Exp →
    Option (Store × String × LoopCtl)
  | 0, _, _, _ => none
  | _ + 1, st, _, [] => some (st, "", .normal)
  | f + 1, st, cid, c :: cs => do
    let (st1, out1, ctl) ← renderF f st cid c
    match ctl with
    | .normal => do
      let (st2, out2, ctl2) ← renderSeqF f st1 cid cs
      pure (st2, out1 ++ out2, ctl2)
    | other => pure (st1, out1, other)
termination_by structural f _ _ _ => f

/-- The filtering pass of `ForExpr::render` (minja.hpp:1832-1841): each
item is destructured into a fresh temporary child context and kept when the
optional condition evaluates truthy there. -/
def buildFilteredF : Nat → Store → Nat → List String → Option Exp →
    List Val → Option (Store × List Val)
  | 0, _, _, _, _, _ => none
  | _ + 1, st, _, _, _, [] => some (st, [])
  | f + 1, st, parentCid, vn, cond, v :: rest => do
    let (st1, tmpCid) := st.ctxMake (some parentCid)
    let st2 ← destructAssign st1 tmpCid vn v
    let (st3, keep) ←
      match cond with
      | none => pure (st2, true)
      | some c => do
        let (s, cv) ← evalF f st2 tmpCid c
        let tb ← toBoolV s cv
        pure (s, tb)
    let (st4, restKept) ← buildFilteredF f st3 parentCid vn cond rest
    pure (st4, if keep then v :: restKept else restKept)
termination_by structural f _ _ _ _ _ => f

/-- The item loop of `ForExpr::render` (minja.hpp:1869-1886): per item it
destructures into the loop context, refreshes the `loop` object's fields,
renders the body, and then — `Break` exits the loop returning `Normal`,
`Continue` and `Normal` proceed to the next item. -/
def forItemsF : Nat → Store → Nat → Nat → List String → Exp → List Val →
    Nat → Option (Store × String × LoopCtl)
  | 0, _, _, _, _, _, _, _ => none
  | f + 1, st, loopCid, loopOid, vn, body, items, i =>
    match items.get? i with
    | none => some (st, "", .normal)
    | some item => do
      let st1 ← destructAssign st loopCid vn item
      let n := items.length
      let st2 :=
        ((((((((st1.setObj loopOid "index" (.prim (.jint (i + 1)))
          ).setObj loopOid "index0" (.prim (.jint i))
          ).setObj loopOid "revindex" (.prim (.jint (n - i)))
          ).setObj loopOid "revindex0" (.prim (.jint (n - i - 1)))
          ).setObj loopOid "first" (.prim (.jbool (i == 0)))
          ).setObj loopOid "last" (.prim (.jbool (i == n - 1)))
          ).setObj loopOid "previtem"
            (if i > 0 then items.getD (i - 1) (.prim .null)
             else .prim .null)
          ).setObj loopOid "nextitem"
            (if i < n - 1 then items.getD (i + 1) (.prim .null)
             else .prim .null))
      let (st3, out, ctl) ← renderF f st2 loopCid body
      match ctl with
      | .breakC => some (st3, out, .normal)
      | _ => do
        let (st4, out2, c2) ← forItemsF f st3 loopCid loopOid vn body
          items (i + 1)
        pure (st4, out ++ out2, c2)
termination_by structural f _ _ _ _ _ _ _ => f

end

/-! ## The builtins environment

`Context::builtins` (minja.hpp:3252-3647) fills a fresh object with one
binding per `globals_obj.set(...)` call, in source order; `escape` is bound
under both `e` and `escape` and `equalto` under both `equalto` and `==`,
sharing one callable each. -/

/-- The closures allocated by `Context::builtins`, in allocation order. -/
def builtinsClosures : List Closure :=
  [.builtin .tojson, .builtin .items, .builtin .last, .builtin .trim,
   .builtin .lower, .builtin .upper, .builtin .dflt, .builtin .escape,
   .builtin .joiner, .builtin .count, .builtin .dictsort, .builtin .join,
   .builtin .nspace, .builtin .equalto, .builtin .length, .builtin .safe,
   .builtin .stringB, .builtin .intB, .builtin .listB, .builtin .unique,
   .builtin .select, .builtin .reject, .builtin .mapB, .builtin .indent,
   .builtin .selectattr, .builtin .rejectattr, .builtin .range]

/-- The `globals_obj.set` calls of `Context::builtins`, in source order
(minja.hpp:3255-3644). -/
def builtinsBindings : List (String × Val) :=
  [("tojson", .fnc 0), ("items", .fnc 1), ("last", .fnc 2), ("trim", .fnc 3),
   ("lower", .fnc 4), ("upper", .fnc 5), ("default", .fnc 6),
   ("e", .fnc 7), ("escape", .fnc 7), ("joiner", .fnc 8), ("count", .fnc 9),
   ("dictsort", .fnc 10), ("join", .fnc 11), ("namespace", .fnc 12),
   ("equalto", .fnc 13), ("==", .fnc 13), ("length", .fnc 14),
   ("safe", .fnc 15), ("string", .fnc 16), ("int", .fnc 17),
   ("list", .fnc 18), ("unique", .fnc 19), ("select", .fnc 20),
   ("reject", .fnc 21), ("map", .fnc 22), ("indent", .fnc 23),
   ("selectattr", .fnc 24), ("rejectattr", .fnc 25), ("range", .fnc 26)]

/-- The contents of the builtins values object after all `set` calls. -/
def builtinsEntries : List (String × Val) :=
  builtinsBindings.foldl (fun es kv => objInsert es kv.1 kv.2) []

/-- The store holding the builtins context (frame 0). -/
def builtinsStore : Store :=
  ⟨[], [builtinsEntries], builtinsClosures, [⟨0, none⟩]⟩

/-- `Context::make(Value::object(), Context::builtins())`: the store of a
render over an empty caller context. -/
def userStore : Store := (builtinsStore.ctxMake (some 0)).1

/-- The context id of that empty caller context. -/
def userCtx : Nat := (builtinsStore.ctxMake (some 0)).2

/-- Projection of a render result to its observable output and control
(dropping the store). -/
def outCtl (r : Option (Store × String × LoopCtl)) :
    Option (String × LoopCtl) :=
  r.map (fun x => x.2)

/-! ## Lexer space markers and template assembly (claim C1) -/

/-- `Parser::parsePreSpace` (minja.hpp:2843-2847): a leading `-` on a tag
yields `Strip`. -/
def parsePreSpace (s : String) : SpaceHandling :=
  if s = "-" then .strip else .keep

/-- `Parser::parsePostSpace` (minja.hpp:2849-2852): a trailing `-` yields
`Strip`. -/
def parsePostSpace (s : String) : SpaceHandling :=
  if s = "-" then .strip else .keep

/-- The lexer's template tokens (minja.hpp:918-963), restricted to the two
kinds the whitespace claim concerns: Text runs and expression tags.  Every
token carries the `pre_space`/`post_space` computed by
`parsePreSpace`/`parsePostSpace` (minja.hpp:2900-2914). -/
inductive TemplateTok where
  | textT (pre post : SpaceHandling) (s : String)
  | exprT (pre post : SpaceHandling) (e : Exp)

/-- The Text and Expression arms of `Parser::parseTemplate`
(minja.hpp:3116-3125): a Text token becomes a `TextExpr` carrying its text
unchanged — the `pre_space`/`post_space` of the adjacent tokens are never
consulted (space handling is an unimplemented TODO, minja.hpp:3118) — and
an Expression token contributes its parsed expression directly. -/
def tokenChildren (toks : List TemplateTok) : List Exp :=
  toks.map fun t =>
    match t with
    | .textT _ _ s => .textE s
    | .exprT _ _ e => e

/-- The tail of `Parser::parseTemplate` (minja.hpp:3184-3190): no children
yield an empty `TextExpr`, a single child is returned as is, several are
wrapped in a `SequenceExpr`. -/
def assembleChildren : List Exp → Exp
  | [] => .textE ""
  | [c] => c
  | cs => .seqE cs

/-- Token stream to AST, per `Parser::parse`. -/
def parseToks (toks : List TemplateTok) : Exp :=
  assembleChildren (tokenChildren toks)

/-- A minimal store: one empty context over an empty object. -/
def plainStore : Store := ⟨[], [[]], [], [⟨0, none⟩]⟩

/-- C1, code_bug evidence.  For the template `a  {{- 1 }}` the lexer does
set `pre_space = Strip` on the expression tag (leading `-`), but rendering
emits the preceding Text run verbatim — the output keeps the trailing
whitespace (`a  1`), because `Parser::parseTemplate` ignores the spacing
flags (TODO at minja.hpp:3118) while the claim requires it to be
stripped (`a1`). -/
theorem c1_strip_marker_ignored :
    parsePreSpace "-" = SpaceHandling.strip ∧
    outCtl (renderF 10 plainStore 0 (parseToks
      [.textT .keep .keep "a  ",
       .exprT (parsePreSpace "-") .keep (.lit (.jint 1))])) =
      some ("a  1", .normal) := by
  constructor
  · rfl
  · rfl

/-! ## Builtins bindings (claim C2) -/

/-- Whether `Context::builtins()` binds `n` to a callable value in its
root values object. -/
def boundToCallable (n : String) : Bool :=
  match lookupAssoc builtinsEntries n with
  | some (.fnc _) => true
  | _ => false

/-- C2, counterexample.  Four of the names the claim enumerates are not
bound at all in the builtins environment of this source: `first`,
`capitalize`, `title` and `strftime_now` do not appear among the
`globals_obj.set` calls of `Context::builtins` (minja.hpp:3252-3647). -/
theorem c2_missing_builtins :
    boundToCallable "first" = false ∧
    boundToCallable "capitalize" = false ∧
    boundToCallable "title" = false ∧
    boundToCallable "strftime_now" = false := by decide

/-- C2, amended.  Every other name of the claim's list is bound to a
callable in the root builtins object. -/
theorem c2_bound_builtins :
    (["tojson", "items", "last", "length", "count", "lower", "upper",
      "trim", "default", "escape", "e", "safe", "joiner", "join",
      "namespace", "equalto", "string", "int", "list", "unique", "select",
      "reject", "selectattr", "rejectattr", "map", "indent", "dictsort",
      "range"].all boundToCallable) = true := by decide

/-! ## Division and modulo by zero (claim C3) -/

/-- C3, counterexample.  A template whose evaluation performs `5 % 0`
renders to completion: the zero divisor is logged, the operation yields
Null (rendered as nothing), and the following text still renders — the
render call does not abort and no error reaches the caller. -/
theorem c3_render_completes :
    outCtl (renderF 20 userStore userCtx
      (.seqE [.binop .modB (.lit (.jint 5)) (.lit (.jint 0)),
              .textE "ok"])) = some ("ok", .normal) := by rfl

/-- C3, amended.  Whenever the right operand of `%` reads as integer zero,
`Value::operator%` yields Null (after logging), and whenever the right
operand of `/` reads as double zero, `Value::operator/` yields Null:
evaluation continues with that value instead of failing. -/
theorem c3_divzero_yields_null :
    (∀ l r : Val, r.getInt = some 0 → valMod l r = some (.prim .null)) ∧
    (∀ l r : Val, r.getDouble = some 0 → valDiv l r = some (.prim .null))
    := by
  constructor
  · intro l r h
    simp [valMod, h]
  · intro l r h
    simp [valDiv, h]

/-- Witness for C3's amended theorem at `5 % 0` and `1.0 / 0.0`. -/
theorem c3_divzero_witness :
    valMod (.prim (.jint 5)) (.prim (.jint 0)) = some (.prim .null) ∧
    valDiv (.prim (.jfloat 1)) (.prim (.jfloat 0)) = some (.prim .null) :=
  ⟨c3_divzero_yields_null.1 _ _ rfl, c3_divzero_yields_null.2 _ _ rfl⟩

/-! ## Floor division (claim C4) -/

/-- C4, code_bug evidence.  `Op::DivDiv` on two Integer values reads the
uninitialized `mDouble` fields of both operands (`get<double>()` on a
`JSON_INT64` json), so `7 // 2` has no defined result — in particular it
does not produce Integer 3; and on Float operands, where the reads are
defined, the result is a Float (`std::floor` wrapped as a double), never
an Integer. -/
theorem c4_divdiv_not_integer :
    valDivDiv (.prim (.jint 7)) (.prim (.jint 2)) = none ∧
    (∀ a b : ℚ, b ≠ 0 →
      valDivDiv (.prim (.jfloat a)) (.prim (.jfloat b)) =
        some (.prim (.jfloat ((⌊a / b⌋ : Int) : ℚ)))) := by
  constructor
  · rfl
  · intro a b hb
    simp [valDivDiv, Val.getDouble, Val.primitive, Prim.getDouble, hb]

/-- Witness for C4's theorem at `a = 7.0`, `b = 2.0`. -/
theorem c4_divdiv_witness :
    valDivDiv (.prim (.jfloat 7)) (.prim (.jfloat 2)) =
      some (.prim (.jfloat 3)) := by
  have h := c4_divdiv_not_integer.2 7 2 (by norm_num)
  have hf : ((⌊(7 : ℚ) / 2⌋ : Int) : ℚ) = 3 := by norm_num
  rw [hf] at h
  exact h

/-! ## Object key order (claim C5) -/

/-- The strict order in which a `std::map<std::string, Value>` keeps its
keys. -/
def SLt (a b : String) : Prop := strLtB a b = true

theorem char_eq_of_toNat_eq {x y : Char} (h : x.toNat = y.toNat) :
    x = y := by
  have hv : x.val = y.val := by
    have hn : x.val.toNat = y.val.toNat := h
    exact UInt32.eq_of_val_eq (Fin.ext hn)
  exact Char.ext hv

theorem charsLt_trans {a b c : List Char} (h1 : charsLt a b = true)
    (h2 : charsLt b c = true) : charsLt a c = true := by
  induction a generalizing b c with
  | nil =>
    cases b with
    | nil => simp [charsLt] at h1
    | cons x xs =>
      cases c with
      | nil => simp [charsLt] at h2
      | cons y ys => simp [charsLt]
  | cons x xs ih =>
    cases b with
    | nil => simp [charsLt] at h1
    | cons y ys =>
      cases c with
      | nil => simp [charsLt] at h2
      | cons z zs =>
        rcases Nat.lt_trichotomy x.toNat y.toNat with hxy | hxy | hxy
        · rcases Nat.lt_trichotomy y.toNat z.toNat with hyz | hyz | hyz
          · simp [charsLt, show x.toNat < z.toNat by omega]
          · simp [charsLt, show x.toNat < z.toNat by omega]
          · simp [charsLt, show ¬ y.toNat < z.toNat by omega, hyz] at h2
        · rcases Nat.lt_trichotomy y.toNat z.toNat with hyz | hyz | hyz
          · simp [charsLt, show x.toNat < z.toNat by omega]
          · simp only [charsLt, if_neg (show ¬ x.toNat < y.toNat by omega),
              if_neg (show ¬ y.toNat < x.toNat by omega)] at h1
            simp only [charsLt, if_neg (show ¬ y.toNat < z.toNat by omega),
              if_neg (show ¬ z.toNat < y.toNat by omega)] at h2
            simp only [charsLt, if_neg (show ¬ x.toNat < z.toNat by omega),
              if_neg (show ¬ z.toNat < x.toNat by omega)]
            exact ih h1 h2
          · simp [charsLt, show ¬ y.toNat < z.toNat by omega, hyz] at h2
        · simp [charsLt, show ¬ x.toNat < y.toNat by omega, hxy] at h1

theorem charsLt_conn {a b : List Char} (h1 : charsLt a b = false)
    (h2 : charsLt b a = false) : a = b := by
  induction a generalizing b with
  | nil =>
    cases b with
    | nil => rfl
    | cons y ys => simp [charsLt] at h1
  | cons x xs ih =>
    cases b with
    | nil => simp [charsLt] at h2
    | cons y ys =>
      rcases Nat.lt_trichotomy x.toNat y.toNat with hxy | hxy | hxy
      · simp [charsLt, hxy] at h1
      · simp only [charsLt, if_neg (show ¬ x.toNat < y.toNat by omega),
          if_neg (show ¬ y.toNat < x.toNat by omega)] at h1 h2
        rw [char_eq_of_toNat_eq hxy, ih h1 h2]
      · simp [charsLt, hxy] at h2

theorem sLt_trans {a b c : String} (h1 : SLt a b) (h2 : SLt b c) :
    SLt a c := charsLt_trans h1 h2

theorem sLt_conn {a b : String} (h1 : strLtB a b = false) (h2 : a ≠ b) :
    SLt b a := by
  unfold SLt strLtB at *
  rcases hba : charsLt b.data a.data with _ | _
  · exfalso
    apply h2
    have hd := charsLt_conn h1 hba
    exact congrArg String.mk hd
  · rfl

/-- Every key of `objInsert l k v` is `k` or a key of `l`. -/
theorem mem_objInsert_fst {l : List (String × Val)} {k a : String}
    {v : Val} (h : a ∈ (objInsert l k v).map Prod.fst) :
    a = k ∨ a ∈ l.map Prod.fst := by
  induction l with
  | nil => simpa [objInsert] using h
  | cons hd tl ih =>
    simp only [objInsert] at h
    split at h
    · simpa using h
    · split at h
      · simp at h
        rcases h with h | h
        · exact Or.inl h
        · exact Or.inr (by simp [h])
      · simp at h
        rcases h with h | h
        · exact Or.inr (by simp [h])
        · rcases ih (by simpa using h) with h' | h'
          · exact Or.inl h'
          · exact Or.inr (by simp [h'])

/-- `objInsert` preserves strict key-sortedness. -/
theorem pairwise_objInsert {l : List (String × Val)} {k : String}
    {v : Val} (h : (l.map Prod.fst).Pairwise SLt) :
    ((objInsert l k v).map Prod.fst).Pairwise SLt := by
  induction l with
  | nil => simp [objInsert]
  | cons hd tl ih =>
    simp only [List.map_cons, List.pairwise_cons] at h
    obtain ⟨hhd, htl⟩ := h
    simp only [objInsert]
    split
    · rename_i hlt
      simp only [List.map_cons, List.pairwise_cons]
      refine ⟨?_, ?_⟩
      · intro a ha
        simp at ha
        rcases ha with ha | ha
        · rw [ha]; exact hlt
        · exact sLt_trans hlt (hhd a (by simpa using ha))
      · exact ⟨hhd, htl⟩
    · split
      · rename_i hne heq
        have hk : k = hd.1 := by simpa using heq
        simp only [List.map_cons, List.pairwise_cons]
        exact ⟨fun a ha => hk ▸ hhd a ha, htl⟩
      · rename_i hnlt hne
        simp only [List.map_cons, List.pairwise_cons]
        refine ⟨?_, ih htl⟩
        intro a ha
        rcases mem_objInsert_fst ha with ha' | ha'
        · rw [ha']
          exact sLt_conn (by simpa using hnlt)
            (fun hkk => by simp [hkk] at hne)
        · exact hhd a ha'

/-- Repeated insertion starting from a sorted object keeps it sorted. -/
theorem pairwise_foldl_objInsert (kvs : List (String × Val))
    (l : List (String × Val)) (h : (l.map Prod.fst).Pairwise SLt) :
    (((kvs.foldl (fun es kv => objInsert es kv.1 kv.2) l).map
      Prod.fst).Pairwise SLt) := by
  induction kvs generalizing l with
  | nil => simpa using h
  | cons kv rest ih => exact ih _ (pairwise_objInsert h)

/-- C5, counterexample.  Setting key `b` then key `a` on a fresh object and
iterating it with `for_each` yields the keys as `a`, `b` — sorted order,
not the insertion order `b`, `a`. -/
theorem c5_insertion_order_refuted :
    forEachVals
      ((Store.setObj (Store.setObj ⟨[], [[]], [], []⟩ 0 "b" (.prim .null))
        0 "a" (.prim .null))) (.obj 0) =
      some [.prim (.jstr "a"), .prim (.jstr "b")] ∧
    [Val.prim (.jstr "a"), .prim (.jstr "b")] ≠
      [Val.prim (.jstr "b"), .prim (.jstr "a")] := by
  constructor
  · rfl
  · decide

/-- C5, amended.  For every sequence of insertions into a fresh Object,
iteration (`for_each`) and `items` see the string keys in strictly
increasing `std::string` order — the `std::map` order, not insertion
order. -/
theorem c5_keys_sorted (kvs : List (String × Val)) :
    (((kvs.foldl (fun es kv => objInsert es kv.1 kv.2) []).map
      Prod.fst).Pairwise SLt) :=
  pairwise_foldl_objInsert kvs [] (by simp)

/-! ## Unbound identifiers (claim C6) -/

/-- C6, counterexample.  Rendering a template that references the unbound
identifier `missing` over an empty caller context completes normally: the
reference evaluates to Null (emitted as nothing) and the rest of the
template still renders — no NameError aborts the render. -/
theorem c6_unbound_renders :
    outCtl (renderF 20 userStore userCtx
      (.seqE [.varE "missing", .textE "ok"])) = some ("ok", .normal) := by
  rfl

/-- C6, amended.  `VariableExpr::do_evaluate` (minja.hpp:878-883) checks
`context->contains(name)` and, for an identifier bound in no scope of the
chain, returns `Value()` — Null — without raising anything; the store is
untouched. -/
theorem c6_unbound_evaluates_null (f : Nat) (st : Store) (cid : Nat)
    (n : String) (h : ctxContains f st cid n = some false) :
    evalF (f + 1) st cid (.varE n) = some (st, .prim .null) := by
  simp [evalF, h]

/-- Witness for C6's amended theorem: `missing` in the empty caller
context over builtins. -/
theorem c6_unbound_witness :
    evalF 4 userStore userCtx (.varE "missing") =
      some (userStore, .prim .null) :=
  c6_unbound_evaluates_null 3 userStore userCtx "missing" (by rfl)

/-! ## Array reference semantics (claim C7) -/

/-- The claim's template: set a to a fresh empty array, bind b to a, emit
`a.append(1) or` the empty string, then emit `b | length`. -/
def c7template : Exp :=
  .seqE [.setVar "" ["a"] (.arrayLit []),
         .setVar "" ["b"] (.varE "a"),
         .binop .orB (.methodCall (.varE "a") "append" [.lit (.jint 1)])
           (.lit (.jstr "")),
         .filt [.varE "b", .varE "length"]]

/-- C7.  Binding a second name to an Array copies the handle, so a
`push_back` through either handle is observed through the other: the
claim's template renders exactly `1` over an empty context, and in general
appending through one handle makes `size` through any alias of the same
array one larger. -/
theorem c7_reference_semantics :
    outCtl (renderF 30 userStore userCtx c7template) =
      some ("1", .normal) ∧
    (∀ (st : Store) (aid : Nat) (xs : List Val) (v : Val),
      st.arrays.get? aid = some xs →
      sizeVal (st.pushArr aid v) (.arr aid) = some (xs.length + 1)) := by
  constructor
  · rfl
  · intro st aid xs v h
    rw [List.get?_eq_getElem?] at h
    simp [sizeVal, Store.pushArr, List.getElem?_modify_eq, h]

/-- Witness for C7's general conjunct at a one-element store. -/
theorem c7_reference_witness :
    sizeVal ((⟨[[.prim .null]], [], [], []⟩ : Store).pushArr 0
      (.prim (.jint 1))) (.arr 0) = some 2 :=
  c7_reference_semantics.2 ⟨[[.prim .null]], [], [], []⟩ 0 [.prim .null]
    (.prim (.jint 1)) rfl

/-! ## Equality requires member truthiness (claim C10) -/

/-- Whether a primitive is the Integer variant (whose `to_bool` reads the
uninitialized `mDouble`). -/
def Prim.isInt : Prim → Bool
  | .jint _ => true
  | _ => false

theorem Prim.toBool_of_not_int {p : Prim} (h : p.isInt = false) :
    p.toBool = some (p.toBool.getD false) := by
  cases p <;> simp_all [Prim.isInt, Prim.toBool]

theorem Prim.eqb_refl (p : Prim) : p.eqb p = true := by
  cases p <;> simp [Prim.eqb]

/-- Self-comparison of an array of non-Integer primitives: the element loop
returns the conjunction of the members' truthiness. -/
theorem valueEqListF_self_prims (ps : List Prim) :
    ∀ (f : Nat) (st : Store) (b : Bool),
    (∀ p ∈ ps, p.isInt = false) →
    valueEqListF f st (ps.map Val.prim) (ps.map Val.prim) = some b →
    b = ps.all (fun p => p.toBool.getD false) := by
  induction ps with
  | nil =>
    intro f st b _ h
    cases f with
    | zero => simp only [valueEqListF] at h; cases h
    | succ f =>
      simp only [List.map_nil, valueEqListF] at h
      cases h
      rfl
  | cons p rest ih =>
    intro f st b hno h
    cases f with
    | zero => simp only [valueEqListF] at h; cases h
    | succ f =>
      have hp : p.isInt = false := hno p (by simp)
      obtain ⟨t, ht⟩ : ∃ t, p.toBool = some t := by
        cases p with
        | jint n => simp [Prim.isInt] at hp
        | null => exact ⟨_, rfl⟩
        | jbool b' => exact ⟨_, rfl⟩
        | jfloat q => exact ⟨_, rfl⟩
        | jstr s => exact ⟨_, rfl⟩
      have hgd : p.toBool.getD false = t := by rw [ht]; rfl
      simp only [List.map_cons, valueEqListF, toBoolV, ht,
        Option.some_bind] at h
      cases t with
      | false =>
        simp at h
        subst h
        simp [hgd]
      | true =>
        cases f with
        | zero =>
          simp only [valueEqF] at h
          simp at h
        | succ f' =>
          simp only [valueEqF, Prim.eqb_refl, Val.primitive] at h
          simp at h
          have hb := ih (f' + 1) st b (fun q hq => hno q (by simp [hq])) h
          simp [hb, hgd]

/-- Key lookup in an object with distinct keys finds the stored value. -/
theorem lookupAssoc_of_mem {es : List (String × Val)} {k : String}
    {v : Val} (hnd : (es.map Prod.fst).Nodup) (hm : (k, v) ∈ es) :
    lookupAssoc es k = some v := by
  induction es with
  | nil => simp at hm
  | cons hd tl ih =>
    simp only [List.map_cons, List.nodup_cons] at hnd
    rcases List.mem_cons.mp hm with hm' | hm'
    · subst hm'
      simp [lookupAssoc, List.find?]
    · have hk : ¬ (hd.1 == k) = true := by
        intro hk
        exact hnd.1 ((eq_of_beq hk) ▸ (List.mem_map.mpr ⟨(k, v), hm', rfl⟩))
      simp only [lookupAssoc, List.find?, Bool.not_eq_true] at hk ⊢
      rw [hk]
      exact ih hnd.2 hm'

theorem hasKey_of_mem {es : List (String × Val)} {k : String} {v : Val}
    (hm : (k, v) ∈ es) : hasKey es k = true := by
  unfold hasKey
  exact List.any_eq_true.mpr ⟨(k, v), hm, by simp⟩

/-- Self-comparison of an object whose values are non-Integer primitives:
the entry loop returns the conjunction of the mapped values'
truthiness. -/
theorem valueEqEntriesF_self_prims (kps : List (String × Prim)) :
    ∀ (les : List (String × Prim)) (f : Nat) (st : Store) (b : Bool),
    (∀ e ∈ les, e ∈ kps) →
    ((kps.map Prod.fst).Nodup) →
    (∀ e ∈ les, (Prim.isInt e.2) = false) →
    valueEqEntriesF f st (les.map (fun e => (e.1, Val.prim e.2)))
      (kps.map (fun e => (e.1, Val.prim e.2))) = some b →
    b = les.all (fun e => e.2.toBool.getD false) := by
  intro les
  induction les with
  | nil =>
    intro f st b _ _ _ h
    cases f with
    | zero => simp only [valueEqEntriesF] at h; cases h
    | succ f =>
      simp only [List.map_nil, valueEqEntriesF] at h
      cases h
      rfl
  | cons e rest ih =>
    intro f st b hsub hnd hno h
    cases f with
    | zero => simp only [valueEqEntriesF] at h; cases h
    | succ f =>
      have hp : e.2.isInt = false := hno e (by simp)
      obtain ⟨t, ht⟩ : ∃ t, e.2.toBool = some t := by
        rcases e with ⟨k, p⟩
        cases p with
        | jint n => simp [Prim.isInt] at hp
        | null => exact ⟨_, rfl⟩
        | jbool b' => exact ⟨_, rfl⟩
        | jfloat q => exact ⟨_, rfl⟩
        | jstr s => exact ⟨_, rfl⟩
      have hgd : e.2.toBool.getD false = t := by rw [ht]; rfl
      have hmem : (e.1, Val.prim e.2) ∈
          kps.map (fun e => (e.1, Val.prim e.2)) :=
        List.mem_map.mpr ⟨e, hsub e (by simp), rfl⟩
      have hnd' : ((kps.map (fun e => (e.1, Val.prim e.2))).map
          Prod.fst).Nodup := by
        simpa [List.map_map, Function.comp] using hnd
      have hkey := hasKey_of_mem hmem
      have hlook := lookupAssoc_of_mem hnd' hmem
      simp only [List.map_cons, valueEqEntriesF, toBoolV, ht,
        Option.some_bind] at h
      cases t with
      | false =>
        simp at h
        subst h
        simp [hgd]
      | true =>
        simp only [hkey, hlook] at h
        cases f with
        | zero =>
          simp only [valueEqF] at h
          simp at h
        | succ f' =>
          simp only [valueEqF, Prim.eqb_refl, Val.primitive] at h
          simp [Prim.eqb_refl] at h
          have hb := ih (f' + 1) st b (fun q hq => hsub q (by simp [hq]))
            hnd (fun q hq => hno q (by simp [hq])) h
          simp [hb, hgd]

/-- The store of the C10 counterexample: array 0 is `[0]` (an Integer
member), array 1 is `[0.0]` (a Float member). -/
def c10store : Store :=
  ⟨[[.prim (.jint 0)], [.prim (.jfloat 0)]], [], [], []⟩

/-- C10, counterexample.  For the Array value `[0]` — which contains the
falsy member Integer 0 — `v == v` does not evaluate to false: the element
truthiness test `(*array_)[i].to_bool()` reads the uninitialized `mDouble`
field of the Integer element (`get<double>() != 0`), so the comparison has
no defined result at all. -/
theorem c10_int_member_undefined :
    valueEqF 5 c10store (.arr 0) (.arr 0) = none ∧
    valueEqF 5 c10store (.arr 0) (.arr 0) ≠ some false := by
  constructor
  · rfl
  · intro h
    simp [valueEqF, valueEqListF, c10store, toBoolV, Prim.toBool] at h

/-- C10, amended.  Container equality requires truthiness of the compared
members: for an Array (or Object) of non-Integer primitive members, `v ==
v` evaluates to the conjunction of the members' truthiness — in particular
it is false whenever some member is Null, false, 0.0 or the empty string;
for an Integer member the truthiness test reads uninitialized memory and
the comparison has no defined result. -/
theorem c10_equality_requires_truthiness :
    (∀ (f : Nat) (st : Store) (aid : Nat) (ps : List Prim) (b : Bool),
      st.arrays.get? aid = some (ps.map Val.prim) →
      (∀ p ∈ ps, p.isInt = false) →
      valueEqF f st (.arr aid) (.arr aid) = some b →
      b = ps.all (fun p => p.toBool.getD false)) ∧
    (∀ (f : Nat) (st : Store) (oid : Nat) (kps : List (String × Prim))
      (b : Bool),
      st.objects.get? oid = some (kps.map (fun e => (e.1, Val.prim e.2))) →
      ((kps.map Prod.fst).Nodup) →
      (∀ e ∈ kps, (Prim.isInt e.2) = false) →
      valueEqF f st (.obj oid) (.obj oid) = some b →
      b = kps.all (fun e => e.2.toBool.getD false)) := by
  constructor
  · intro f st aid ps b harr hno h
    cases f with
    | zero => simp [valueEqF] at h
    | succ f =>
      simp only [valueEqF, harr, Option.some_bind, if_pos rfl] at h
      exact valueEqListF_self_prims ps f st b hno (by simpa using h)
  · intro f st oid kps b hobj hnd hno h
    cases f with
    | zero => simp [valueEqF] at h
    | succ f =>
      simp only [valueEqF, hobj, Option.some_bind, if_pos rfl] at h
      exact valueEqEntriesF_self_prims kps kps f st b (fun e he => he) hnd
        hno (by simpa using h)

/-- Witness for C10's amended theorem: the Array `[0.0]` and the Object
mapping `k` to the empty string both compare unequal to themselves. -/
theorem c10_truthiness_witness :
    (false = [Prim.jfloat 0].all (fun p => p.toBool.getD false)) ∧
    (false = [("k", Prim.jstr "")].all
      (fun e => e.2.toBool.getD false)) := by
  constructor
  · exact c10_equality_requires_truthiness.1 5 c10store 1 [.jfloat 0] false
      rfl (by decide) rfl
  · exact c10_equality_requires_truthiness.2 5
      ⟨[], [[("k", .prim (.jstr ""))]], [], []⟩ 0 [("k", .jstr "")] false
      rfl (by decide) (by decide) rfl

/-! ## Loop controls (claim C9) -/

/-- `s` repeated `n` times. -/
def repStr : Nat → String → String
  | 0, _ => ""
  | n + 1, s => s ++ repStr n s

/-- Inversion of a successful `Option` bind. -/
theorem bindInv {α β : Type} {o : Option α} {g : α → Option β} {b : β}
    (h : o >>= g = some b) : ∃ a, o = some a ∧ g a = some b := by
  cases o with
  | none => simp at h
  | some a => exact ⟨a, rfl, h⟩

/-- Rendering the body `Text A; break; Text B` emits `A` and hands `Break`
to the enclosing loop, leaving the store unchanged; `Text B` is never
reached. -/
theorem renderF_seq_break (f : Nat) (st : Store) (cid : Nat)
    (A B : String) (st' : Store) (out : String) (ctl : LoopCtl)
    (h : renderF f st cid
      (.seqE [.textE A, .loopCtl .breakC, .textE B]) =
      some (st', out, ctl)) :
    st' = st ∧ out = A ∧ ctl = .breakC := by
  match f with
  | 0 =>
    rw [show renderF 0 st cid
      (.seqE [.textE A, .loopCtl .breakC, .textE B]) = none from rfl] at h
    cases h
  | 1 =>
    rw [show renderF 1 st cid
      (.seqE [.textE A, .loopCtl .breakC, .textE B]) = none from rfl] at h
    cases h
  | 2 =>
    rw [show renderF 2 st cid
      (.seqE [.textE A, .loopCtl .breakC, .textE B]) = none from rfl] at h
    cases h
  | 3 =>
    rw [show renderF 3 st cid
      (.seqE [.textE A, .loopCtl .breakC, .textE B]) = none from rfl] at h
    cases h
  | f + 4 =>
    rw [show renderF (f + 4) st cid
      (.seqE [.textE A, .loopCtl .breakC, .textE B]) =
      some (st, A ++ "", .breakC) from rfl] at h
    cases h
    exact ⟨rfl, by simp, rfl⟩

/-- Rendering the body `Text A; continue; Text B` emits `A` and hands
`Continue` to the enclosing loop, leaving the store unchanged; `Text B` is
never reached. -/
theorem renderF_seq_continue (f : Nat) (st : Store) (cid : Nat)
    (A B : String) (st' : Store) (out : String) (ctl : LoopCtl)
    (h : renderF f st cid
      (.seqE [.textE A, .loopCtl .continueC, .textE B]) =
      some (st', out, ctl)) :
    st' = st ∧ out = A ∧ ctl = .continueC := by
  match f with
  | 0 =>
    rw [show renderF 0 st cid
      (.seqE [.textE A, .loopCtl .continueC, .textE B]) = none from rfl]
      at h
    cases h
  | 1 =>
    rw [show renderF 1 st cid
      (.seqE [.textE A, .loopCtl .continueC, .textE B]) = none from rfl]
      at h
    cases h
  | 2 =>
    rw [show renderF 2 st cid
      (.seqE [.textE A, .loopCtl .continueC, .textE B]) = none from rfl]
      at h
    cases h
  | 3 =>
    rw [show renderF 3 st cid
      (.seqE [.textE A, .loopCtl .continueC, .textE B]) = none from rfl]
      at h
    cases h
  | f + 4 =>
    rw [show renderF (f + 4) st cid
      (.seqE [.textE A, .loopCtl .continueC, .textE B]) =
      some (st, A ++ "", .continueC) from rfl] at h
    cases h
    exact ⟨rfl, by simp, rfl⟩

/-- The item loop of `ForExpr::render` hands only `Normal` back to its
caller: `Break` is turned into `Normal` (minja.hpp:1883) and `Continue`
proceeds with the next item (minja.hpp:1884). -/
theorem forItemsF_ctl_normal :
    ∀ (f : Nat) (st : Store) (lc lo : Nat) (vn : List String) (body : Exp)
      (items : List Val) (i : Nat) (st' : Store) (out : String)
      (ctl : LoopCtl),
    forItemsF f st lc lo vn body items i = some (st', out, ctl) →
    ctl = .normal := by
  intro f
  induction f with
  | zero =>
    intro st lc lo vn body items i st' out ctl h
    simp only [forItemsF] at h
    cases h
  | succ f ih =>
    intro st lc lo vn body items i st' out ctl h
    simp only [forItemsF] at h
    split at h
    · cases h
      rfl
    · rename_i item hitem
      cases hd : destructAssign st lc vn item with
      | none => rw [hd] at h; simp at h
      | some st1 =>
        rw [hd] at h
        simp only [Option.bind_eq_bind, Option.some_bind] at h
        cases hbind : renderF f
          (((((((((st1.setObj lo "index" (.prim (.jint (i + 1)))
            ).setObj lo "index0" (.prim (.jint i))
            ).setObj lo "revindex" (.prim (.jint (items.length - i)))
            ).setObj lo "revindex0"
              (.prim (.jint (items.length - i - 1)))
            ).setObj lo "first" (.prim (.jbool (i == 0)))
            ).setObj lo "last" (.prim (.jbool (i == items.length - 1)))
            ).setObj lo "previtem"
              (if i > 0 then items.getD (i - 1) (.prim .null)
               else .prim .null)
            ).setObj lo "nextitem"
              (if i < items.length - 1 then items.getD (i + 1) (.prim .null)
               else .prim .null))) lc body with
        | none => rw [hbind] at h; simp at h
        | some r =>
          rw [hbind] at h
          simp only [Option.bind_eq_bind, Option.some_bind] at h
          rcases r with ⟨st3, out3, ctl3⟩
          cases ctl3 with
          | breakC =>
            simp only at h
            cases h
            rfl
          | normal =>
            simp only at h
            cases hrec : forItemsF f st3 lc lo vn body items (i + 1) with
            | none => rw [hrec] at h; simp at h
            | some r' =>
              rw [hrec] at h
              simp only [Option.bind_eq_bind, Option.some_bind] at h
              rcases r' with ⟨st4, out4, ctl4⟩
              cases h
              exact ih st3 lc lo vn body items (i + 1) st4 out4 ctl4 hrec
          | continueC =>
            simp only at h
            cases hrec : forItemsF f st3 lc lo vn body items (i + 1) with
            | none => rw [hrec] at h; simp at h
            | some r' =>
              rw [hrec] at h
              simp only [Option.bind_eq_bind, Option.some_bind] at h
              rcases r' with ⟨st4, out4, ctl4⟩
              cases h
              exact ih st3 lc lo vn body items (i + 1) st4 out4 ctl4 hrec

/-- A Break produced by the body at the current item stops the iteration:
the loop's result is the body output of that single item and the control
handed upward is `Normal`. -/
theorem forItemsF_break (f : Nat) (st : Store) (lc lo : Nat)
    (vn : List String) (A B : String) (items : List Val) (i : Nat)
    (st' : Store) (out : String) (ctl : LoopCtl)
    (hi : i < items.length)
    (h : forItemsF f st lc lo vn
      (.seqE [.textE A, .loopCtl .breakC, .textE B]) items i =
      some (st', out, ctl)) :
    out = A ∧ ctl = .normal := by
  cases f with
  | zero => simp only [forItemsF] at h; cases h
  | succ f =>
    simp only [forItemsF] at h
    split at h
    · rename_i hnone
      have := List.get?_eq_none.mp hnone
      omega
    · rename_i item hitem
      simp only [Option.bind_eq_bind] at h
      obtain ⟨st1, hd, h⟩ := bindInv h
      obtain ⟨r3, hr3, h⟩ := bindInv h
      obtain ⟨heq1, heq2, heq3⟩ := renderF_seq_break f _ lc A B r3.1
        r3.2.1 r3.2.2 (by rw [hr3])
      rw [heq3] at h
      dsimp only at h
      cases h
      exact ⟨heq2, rfl⟩

/-- A Continue produced by the body skips the rest of that iteration and
proceeds with the next item: over the remaining items the loop emits one
copy of the pre-continue text per item and ends with `Normal`. -/
theorem forItemsF_continue :
    ∀ (f : Nat) (st : Store) (lc lo : Nat) (vn : List String)
      (A B : String) (items : List Val) (i : Nat) (st' : Store)
      (out : String) (ctl : LoopCtl),
    forItemsF f st lc lo vn
      (.seqE [.textE A, .loopCtl .continueC, .textE B]) items i =
      some (st', out, ctl) →
    out = repStr (items.length - i) A ∧ ctl = .normal := by
  intro f
  induction f with
  | zero =>
    intro st lc lo vn A B items i st' out ctl h
    simp only [forItemsF] at h
    cases h
  | succ f ih =>
    intro st lc lo vn A B items i st' out ctl h
    simp only [forItemsF] at h
    split at h
    · rename_i hnone
      have hlen := List.get?_eq_none.mp hnone
      cases h
      rw [show items.length - i = 0 from by omega]
      exact ⟨rfl, rfl⟩
    · rename_i item hitem
      have hi : i < items.length := by
        by_contra hge
        rw [List.get?_eq_none.mpr (by omega)] at hitem
        cases hitem
      simp only [Option.bind_eq_bind] at h
      obtain ⟨st1, hd, h⟩ := bindInv h
      obtain ⟨r3, hr3, h⟩ := bindInv h
      obtain ⟨heq1, heq2, heq3⟩ := renderF_seq_continue f _ lc A B r3.1
        r3.2.1 r3.2.2 (by rw [hr3])
      rw [heq3] at h
      dsimp only at h
      obtain ⟨r4, hr4, h⟩ := bindInv h
      obtain ⟨hout4, hctl4⟩ := ih _ lc lo vn A B items (i + 1) r4.1
        r4.2.1 r4.2.2 hr4
      cases h
      constructor
      · rw [show items.length - i = (items.length - (i + 1)) + 1 from
          by omega]
        rw [repStr, heq2, hout4]
      · exact hctl4

/-- C9.  Loop-control signals are confined to the nearest enclosing For:
(1) a For statement with no else-body only ever returns `Normal` to its
parent, whatever its body produces; (2) a Break inside the body stops the
iteration — the loop's output is the single current item's output up to
the break and the For yields `Normal`; (3) a Continue skips the rest of
the current iteration and proceeds with the next item — each remaining
item emits exactly the text before the continue. -/
theorem c9_loop_controls :
    (∀ (f : Nat) (st : Store) (cid : Nat) (vn : List String) (it : Exp)
      (cond : Option Exp) (body : Exp) (r : Bool) (st' : Store)
      (out : String) (ctl : LoopCtl),
      renderF f st cid (.forE vn it cond body r none) =
        some (st', out, ctl) → ctl = .normal) ∧
    (∀ (f : Nat) (st : Store) (lc lo : Nat) (vn : List String)
      (A B : String) (items : List Val) (i : Nat) (st' : Store)
      (out : String) (ctl : LoopCtl), i < items.length →
      forItemsF f st lc lo vn
        (.seqE [.textE A, .loopCtl .breakC, .textE B]) items i =
        some (st', out, ctl) →
      out = A ∧ ctl = .normal) ∧
    (∀ (f : Nat) (st : Store) (lc lo : Nat) (vn : List String)
      (A B : String) (items : List Val) (st' : Store) (out : String)
      (ctl : LoopCtl),
      forItemsF f st lc lo vn
        (.seqE [.textE A, .loopCtl .continueC, .textE B]) items 0 =
        some (st', out, ctl) →
      out = repStr items.length A ∧ ctl = .normal) := by
  refine ⟨?_, ?_, ?_⟩
  · intro f st cid vn it cond body r st' out ctl h
    cases f with
    | zero => simp only [renderF] at h; cases h
    | succ f =>
      simp only [renderF, Option.bind_eq_bind] at h
      obtain ⟨p1, hp1, h⟩ := bindInv h
      split at h
      · obtain ⟨items, hitems, h⟩ := bindInv h
        obtain ⟨p2, hp2, h⟩ := bindInv h
        split at h
        · cases h
          rfl
        · split at h
          · cases h
          · exact forItemsF_ctl_normal f _ _ _ vn body p2.2 0 st' out ctl h
      · obtain ⟨p2, hp2, h⟩ := bindInv h
        cases hp2
        split at h
        · cases h
          rfl
        · rename_i hne
          simp at hne
  · intro f st lc lo vn A B items i st' out ctl hi h
    exact forItemsF_break f st lc lo vn A B items i st' out ctl hi h
  · intro f st lc lo vn A B items st' out ctl h
    have := forItemsF_continue f st lc lo vn A B items 0 st' out ctl h
    simpa using this

/-- A two-object store for exercising the item loop directly: context 0
over values object 0, loop object 1. -/
def c9store : Store := ⟨[], [[], []], [], [⟨0, none⟩]⟩

/-- Witness for C9 at concrete loops: a three-element loop whose body
breaks returns Normal; the item loop over two items with a breaking body
emits `x` once; with a continuing body it emits `x` per item. -/
theorem c9_loop_witness :
    (∃ st' out, renderF 40 userStore userCtx
      (.forE ["x"]
        (.arrayLit [.lit (.jint 1), .lit (.jint 2), .lit (.jint 3)])
        none (.seqE [.textE "x", .loopCtl .breakC, .textE "y"])
        false none) = some (st', out, LoopCtl.normal)) ∧
    (∃ st', forItemsF 10 c9store 0 1 ["x"]
      (.seqE [.textE "x", .loopCtl .breakC, .textE "y"])
      [.prim (.jint 7), .prim (.jint 8)] 0 =
      some (st', "x", LoopCtl.normal)) ∧
    (∃ st', forItemsF 10 c9store 0 1 ["x"]
      (.seqE [.textE "x", .loopCtl .continueC, .textE "y"])
      [.prim (.jint 7), .prim (.jint 8)] 0 =
      some (st', repStr 2 "x", LoopCtl.normal)) := by
  refine ⟨?_, ?_, ?_⟩
  · obtain ⟨st', out, ctl, hEq⟩ : ∃ st' out ctl,
        renderF 40 userStore userCtx
          (.forE ["x"]
            (.arrayLit [.lit (.jint 1), .lit (.jint 2), .lit (.jint 3)])
            none (.seqE [.textE "x", .loopCtl .breakC, .textE "y"])
            false none) = some (st', out, ctl) := ⟨_, _, _, rfl⟩
    have hc := c9_loop_controls.1 40 userStore userCtx _ _ _ _ _ _ _ _ hEq
    subst hc
    exact ⟨st', out, hEq⟩
  · obtain ⟨st', out, ctl, hEq⟩ : ∃ st' out ctl,
        forItemsF 10 c9store 0 1 ["x"]
          (.seqE [.textE "x", .loopCtl .breakC, .textE "y"])
          [.prim (.jint 7), .prim (.jint 8)] 0 = some (st', out, ctl) :=
      ⟨_, _, _, rfl⟩
    obtain ⟨ho, hc⟩ := c9_loop_controls.2.1 10 c9store 0 1 ["x"] "x" "y"
      [.prim (.jint 7), .prim (.jint 8)] 0 st' out ctl (by decide) hEq
    subst ho
    subst hc
    exact ⟨st', hEq⟩
  · obtain ⟨st', out, ctl, hEq⟩ : ∃ st' out ctl,
        forItemsF 10 c9store 0 1 ["x"]
          (.seqE [.textE "x", .loopCtl .continueC, .textE "y"])
          [.prim (.jint 7), .prim (.jint 8)] 0 = some (st', out, ctl) :=
      ⟨_, _, _, rfl⟩
    obtain ⟨ho, hc⟩ := c9_loop_controls.2.2 10 c9store 0 1 ["x"] "x" "y"
      [.prim (.jint 7), .prim (.jint 8)] st' out ctl hEq
    subst ho
    subst hc
    exact ⟨st', hEq⟩

/-! ## Macro hygiene (claim C8)

Calling a macro renders its body in a fresh child of the definition-site
context (minja.hpp:1936), so plain `set` statements in the body write into
that fresh scope's values object, never into a pre-existing one.  The
frame lemmas below make this precise for bodies built from the
store-benign constructs a macro body uses to set and read variables. -/

mutual

/-- Expressions whose evaluation never touches the object store or the
context frames (it may allocate new arrays): literals, variable reads,
the modelled binary operators, and array literals of such. -/
def pureB : Exp → Bool
  | .lit _ => true
  | .varE _ => true
  | .binop _ l r => pureB l && pureB r
  | .arrayLit es => pureListB es
  | _ => false

def pureListB : List Exp → Bool
  | [] => true
  | e :: es => pureB e && pureListB es

end

mutual

/-- Statement bodies that only write through `Context::set` on their own
frontmost scope: text, emitted pure expressions, plain (non-namespaced)
`set` of a pure value, sequences of such, and loop controls. -/
def hygB : Exp → Bool
  | .textE _ => true
  | .lit _ => true
  | .varE _ => true
  | .binop _ l r => pureB l && pureB r
  | .seqE cs => hygListB cs
  | .setVar ns _ value => (ns == "") && pureB value
  | .loopCtl _ => true
  | _ => false

def hygListB : List Exp → Bool
  | [] => true
  | e :: es => hygB e && hygListB es

end

/-- A pure expression's evaluation leaves the object store and the context
frames exactly as they were (array allocation aside). -/
theorem evalF_pure_frame :
    ∀ f : Nat,
    (∀ (st : Store) (cid : Nat) (e : Exp) (st' : Store) (v : Val),
      pureB e = true → evalF f st cid e = some (st', v) →
      st'.objects = st.objects ∧ st'.ctxs = st.ctxs) ∧
    (∀ (st : Store) (cid : Nat) (es : List Exp) (st' : Store)
      (vs : List Val),
      pureListB es = true → evalListF f st cid es = some (st', vs) →
      st'.objects = st.objects ∧ st'.ctxs = st.ctxs) := by
  intro f
  induction f with
  | zero =>
    constructor
    · intro st cid e st' v _ h
      simp only [evalF] at h
      cases h
    · intro st cid es st' vs _ h
      simp only [evalListF] at h
      cases h
  | succ f ih =>
    constructor
    · intro st cid e st' v hp h
      cases e with
      | lit p =>
        simp only [evalF] at h
        cases h
        exact ⟨rfl, rfl⟩
      | varE n =>
        simp only [evalF, Option.bind_eq_bind] at h
        obtain ⟨b, hb, h⟩ := bindInv h
        split at h
        · obtain ⟨v', hv', h⟩ := bindInv h
          cases h
          exact ⟨rfl, rfl⟩
        · cases h
          exact ⟨rfl, rfl⟩
      | arrayLit es =>
        simp only [pureB] at hp
        simp only [evalF, Option.bind_eq_bind] at h
        obtain ⟨p1, hp1, h⟩ := bindInv h
        cases h
        obtain ⟨ho, hc⟩ := ih.2 st cid es p1.1 p1.2 hp hp1
        exact ⟨ho, hc⟩
      | binop op l r =>
        simp only [pureB, Bool.and_eq_true] at hp
        simp only [evalF, Option.bind_eq_bind] at h
        obtain ⟨p1, hp1, h⟩ := bindInv h
        obtain ⟨ho1, hc1⟩ := ih.1 st cid l p1.1 p1.2 hp.1 hp1
        cases op with
        | orB =>
          obtain ⟨tb, htb, h⟩ := bindInv h
          split at h
          · cases h
            exact ⟨ho1, hc1⟩
          · obtain ⟨ho2, hc2⟩ := ih.1 p1.1 cid r st' v hp.2 h
            exact ⟨ho2.trans ho1, hc2.trans hc1⟩
        | divB =>
          obtain ⟨p2, hp2, h⟩ := bindInv h
          obtain ⟨ho2, hc2⟩ := ih.1 p1.1 cid r p2.1 p2.2 hp.2 hp2
          obtain ⟨w, hw, h⟩ := bindInv h
          cases h
          exact ⟨ho2.trans ho1, hc2.trans hc1⟩
        | divdivB =>
          obtain ⟨p2, hp2, h⟩ := bindInv h
          obtain ⟨ho2, hc2⟩ := ih.1 p1.1 cid r p2.1 p2.2 hp.2 hp2
          obtain ⟨w, hw, h⟩ := bindInv h
          cases h
          exact ⟨ho2.trans ho1, hc2.trans hc1⟩
        | modB =>
          obtain ⟨p2, hp2, h⟩ := bindInv h
          obtain ⟨ho2, hc2⟩ := ih.1 p1.1 cid r p2.1 p2.2 hp.2 hp2
          obtain ⟨w, hw, h⟩ := bindInv h
          cases h
          exact ⟨ho2.trans ho1, hc2.trans hc1⟩
        | eqB =>
          obtain ⟨p2, hp2, h⟩ := bindInv h
          obtain ⟨ho2, hc2⟩ := ih.1 p1.1 cid r p2.1 p2.2 hp.2 hp2
          obtain ⟨w, hw, h⟩ := bindInv h
          cases h
          exact ⟨ho2.trans ho1, hc2.trans hc1⟩
      | methodCall o m args => simp [pureB] at hp
      | callE fe args => simp [pureB] at hp
      | filt parts => simp [pureB] at hp
      | textE s => simp [pureB] at hp
      | seqE cs => simp [pureB] at hp
      | forE vn it cond body rec? elseB => simp [pureB] at hp
      | mcrDecl n params body => simp [pureB] at hp
      | setVar ns vn value => simp [pureB] at hp
      | loopCtl c => simp [pureB] at hp
    · intro st cid es st' vs hp h
      cases es with
      | nil =>
        simp only [evalListF] at h
        cases h
        exact ⟨rfl, rfl⟩
      | cons e rest =>
        simp only [pureListB, Bool.and_eq_true] at hp
        simp only [evalListF, Option.bind_eq_bind] at h
        obtain ⟨p1, hp1, h⟩ := bindInv h
        obtain ⟨ho1, hc1⟩ := ih.1 st cid e p1.1 p1.2 hp.1 hp1
        obtain ⟨p2, hp2, h⟩ := bindInv h
        obtain ⟨ho2, hc2⟩ := ih.2 p1.1 cid rest p2.1 p2.2 hp.2 hp2
        cases h
        exact ⟨ho2.trans ho1, hc2.trans hc1⟩

/-- Between two stores: the object store has the same size and agrees
everywhere except possibly at index `voi`, and the context frames are
unchanged.  This is what a macro body's execution preserves relative to
its fresh values object `voi`. -/
def FrameKept (voi : Nat) (st st' : Store) : Prop :=
  st'.objects.length = st.objects.length ∧ st'.ctxs = st.ctxs ∧
  ∀ o, o ≠ voi → st'.objects.get? o = st.objects.get? o

theorem frameKept_rfl {voi : Nat} {st : Store} : FrameKept voi st st :=
  ⟨Eq.refl _, Eq.refl _, fun _ _ => Eq.refl _⟩

theorem FrameKept.trans {voi : Nat} {s1 s2 s3 : Store}
    (h12 : FrameKept voi s1 s2) (h23 : FrameKept voi s2 s3) :
    FrameKept voi s1 s3 :=
  ⟨h23.1.trans h12.1, h23.2.1.trans h12.2.1,
   fun o ho => (h23.2.2 o ho).trans (h12.2.2 o ho)⟩

theorem frameKept_of_eq {voi : Nat} {st st' : Store}
    (ho : st'.objects = st.objects) (hc : st'.ctxs = st.ctxs) :
    FrameKept voi st st' :=
  ⟨by rw [ho], hc, fun o _ => by rw [ho]⟩

theorem frameKept_of_ctxs_objects {voi : Nat} {st st' : Store}
    (h : FrameKept voi st st') :
    st'.ctxValues = st.ctxValues := by
  funext cid
  simp [Store.ctxValues, h.2.1]

/-- `Value::set` on the object at `voi` keeps the frame. -/
theorem setObj_frame (st : Store) (voi : Nat) (k : String) (v : Val) :
    FrameKept voi st (st.setObj voi k v) := by
  refine ⟨?_, rfl, ?_⟩
  · simp [Store.setObj]
  · intro o ho
    simp only [Store.setObj]
    rw [List.get?_eq_getElem?, List.get?_eq_getElem?]
    exact List.getElem?_modify_ne _ st.objects (Ne.symm ho)

/-- `Context::set` writes only into the frame's values object. -/
theorem ctxSet_frame {st st' : Store} {cid voi : Nat} {k : String}
    {v : Val} (hv : st.ctxValues cid = some voi)
    (h : st.ctxSet cid k v = some st') : FrameKept voi st st' := by
  simp only [Store.ctxSet, Option.bind_eq_bind] at h
  obtain ⟨voi', hvoi', h⟩ := bindInv h
  rw [hv] at hvoi'
  cases hvoi'
  cases h
  exact setObj_frame st voi k v

/-- A fold of `Context::set` steps keeps the frame. -/
theorem foldlM_ctxSet_frame {α : Type} (cid voi : Nat) (key : α → String)
    (val : α → Val) :
    ∀ (l : List α) (st st' : Store), st.ctxValues cid = some voi →
    l.foldlM (fun (s : Store) (a : α) => s.ctxSet cid (key a) (val a))
      st = some st' →
    FrameKept voi st st' := by
  intro l
  induction l with
  | nil =>
    intro st st' hv h
    simp only [List.foldlM] at h
    cases h
    exact frameKept_rfl
  | cons a rest ih =>
    intro st st' hv h
    simp only [List.foldlM, Option.bind_eq_bind] at h
    obtain ⟨s1, hs1, h⟩ := bindInv h
    have hf1 := ctxSet_frame hv hs1
    have hv1 : s1.ctxValues cid = some voi := by
      rw [frameKept_of_ctxs_objects hf1]
      exact hv
    exact hf1.trans (ih s1 st' hv1 h)

/-- `destructuring_assign` writes only through `Context::set` on the given
context. -/
theorem destructAssign_frame {st st' : Store} {cid voi : Nat}
    {names : List String} {v : Val} (hv : st.ctxValues cid = some voi)
    (h : destructAssign st cid names v = some st') :
    FrameKept voi st st' := by
  rcases names with _ | ⟨n, _ | ⟨m, rest⟩⟩
  · simp only [destructAssign] at h
    split at h
    · cases h
    · exact foldlM_ctxSet_frame cid voi (fun n => n)
        (fun _ => .prim .null) [] st st' hv h
    · split at h
      · rename_i aid
        simp only [Option.bind_eq_bind] at h
        obtain ⟨vs, hvs, h⟩ := bindInv h
        exact foldlM_ctxSet_frame cid voi Prod.fst Prod.snd _ st st' hv h
      · cases h
  · simp only [destructAssign] at h
    exact ctxSet_frame hv h
  · simp only [destructAssign] at h
    split at h
    · cases h
    · exact foldlM_ctxSet_frame cid voi (fun n => n)
        (fun _ => .prim .null) _ st st' hv h
    · split at h
      · rename_i aid
        simp only [Option.bind_eq_bind] at h
        obtain ⟨vs, hvs, h⟩ := bindInv h
        exact foldlM_ctxSet_frame cid voi Prod.fst Prod.snd _ st st' hv h
      · cases h

/-- Rendering a hygienic body writes only into the current context's
values object. -/
theorem renderF_hyg_frame :
    ∀ f : Nat,
    (∀ (st : Store) (cid : Nat) (e : Exp) (st' : Store) (out : String)
      (ctl : LoopCtl) (voi : Nat),
      hygB e = true → st.ctxValues cid = some voi →
      renderF f st cid e = some (st', out, ctl) → FrameKept voi st st') ∧
    (∀ (st : Store) (cid : Nat) (cs : List Exp) (st' : Store)
      (out : String) (ctl : LoopCtl) (voi : Nat),
      hygListB cs = true → st.ctxValues cid = some voi →
      renderSeqF f st cid cs = some (st', out, ctl) →
      FrameKept voi st st') := by
  intro f
  induction f with
  | zero =>
    constructor
    · intro st cid e st' out ctl voi _ _ h
      simp only [renderF] at h
      cases h
    · intro st cid cs st' out ctl voi _ _ h
      simp only [renderSeqF] at h
      cases h
  | succ f ih =>
    have emitCase : ∀ (st : Store) (cid : Nat) (e : Exp) (st' : Store)
        (out : String) (ctl : LoopCtl) (voi : Nat), pureB e = true →
        (do
          let p ← evalF f st cid e
          match p.2 with
          | .prim .null => pure (p.1, "", LoopCtl.normal)
          | .prim (.jbool b) =>
            pure (p.1, (if b then "True" else "False"), LoopCtl.normal)
          | v' => do
            let o ← toStrV v'
            pure (p.1, o, LoopCtl.normal)) = some (st', out, ctl) →
        FrameKept voi st st' := by
      intro st cid e st' out ctl voi hp h
      obtain ⟨p, hpe, h⟩ := bindInv h
      obtain ⟨ho, hc⟩ := (evalF_pure_frame f).1 st cid e p.1 p.2 hp hpe
      split at h
      · cases h
        exact frameKept_of_eq ho hc
      · cases h
        exact frameKept_of_eq ho hc
      · obtain ⟨s, hs, h⟩ := bindInv h
        cases h
        exact frameKept_of_eq ho hc
    constructor
    · intro st cid e st' out ctl voi hyg hv h
      cases e with
      | textE s =>
        simp only [renderF] at h
        cases h
        exact frameKept_rfl
      | loopCtl c =>
        simp only [renderF] at h
        cases h
        exact frameKept_rfl
      | seqE cs =>
        simp only [hygB] at hyg
        simp only [renderF] at h
        exact ih.2 st cid cs st' out ctl voi hyg hv h
      | lit p =>
        simp only [renderF] at h
        exact emitCase st cid (.lit p) st' out ctl voi rfl h
      | varE n =>
        simp only [renderF] at h
        exact emitCase st cid (.varE n) st' out ctl voi rfl h
      | binop op l r =>
        simp only [hygB] at hyg
        simp only [renderF] at h
        exact emitCase st cid (.binop op l r) st' out ctl voi
          (by simp only [pureB]; exact hyg) h
      | setVar ns vn value =>
        simp only [hygB, Bool.and_eq_true, beq_iff_eq] at hyg
        obtain ⟨hns, hpv⟩ := hyg
        subst hns
        simp only [renderF, Option.bind_eq_bind] at h
        obtain ⟨p, hpe, h⟩ := bindInv h
        obtain ⟨ho, hc⟩ := (evalF_pure_frame f).1 st cid value p.1 p.2
          hpv hpe
        have hv1 : p.1.ctxValues cid = some voi := by
          simp [Store.ctxValues, hc]
          simpa [Store.ctxValues] using hv
        simp only [if_true] at h
        obtain ⟨st2, hst2, h⟩ := bindInv h
        cases h
        exact (frameKept_of_eq ho hc).trans (destructAssign_frame hv1 hst2)
      | arrayLit es => simp [hygB] at hyg
      | methodCall o m args => simp [hygB] at hyg
      | callE fe args => simp [hygB] at hyg
      | filt parts => simp [hygB] at hyg
      | forE vn it cond body rec? elseB => simp [hygB] at hyg
      | mcrDecl n params body => simp [hygB] at hyg
    · intro st cid cs st' out ctl voi hyg hv h
      cases cs with
      | nil =>
        simp only [renderSeqF] at h
        cases h
        exact frameKept_rfl
      | cons c rest =>
        simp only [hygListB, Bool.and_eq_true] at hyg
        simp only [renderSeqF, Option.bind_eq_bind] at h
        obtain ⟨r1, hr1, h⟩ := bindInv h
        have hf1 := ih.1 st cid c r1.1 r1.2.1 r1.2.2 voi hyg.1 hv hr1
        have hv1 : r1.1.ctxValues cid = some voi := by
          rw [frameKept_of_ctxs_objects hf1]
          exact hv
        split at h
        · obtain ⟨r2, hr2, h⟩ := bindInv h
          have hf2 := ih.2 r1.1 cid rest r2.1 r2.2.1 r2.2.2 voi hyg.2
            hv1 hr2
          cases h
          exact hf1.trans hf2
        · cases h
          exact hf1

/-- Positional macro-argument binding writes only into the execution
frame's values object. -/
theorem bindPositional_frame {st st' : Store} {execCid voi : Nat}
    {params : List (String × Option Exp)} {args : List Val}
    {flags : List Bool} (hv : st.ctxValues execCid = some voi)
    (h : bindPositional st execCid params args = some (st', flags)) :
    FrameKept voi st st' := by
  simp only [bindPositional, Option.bind_eq_bind] at h
  obtain ⟨s1, hs1, h⟩ := bindInv h
  simp only [Option.pure_def, Option.some.injEq, Prod.mk.injEq] at h
  obtain ⟨h1, -⟩ := h
  subst h1
  exact @foldlM_ctxSet_frame ((String × Option Exp) × Val) execCid voi
    (fun pv => pv.1.1) (fun pv => pv.2) (params.zip args) st s1 hv hs1

/-- Keyword macro-argument binding writes only into the execution frame's
values object. -/
theorem bindKw_frame {execCid voi : Nat}
    {params : List (String × Option Exp)} :
    ∀ (kwargs : List (String × Val)) (st : Store) (flags : List Bool)
      (st' : Store) (flags' : List Bool),
    st.ctxValues execCid = some voi →
    bindKw st execCid params flags kwargs = some (st', flags') →
    FrameKept voi st st' := by
  intro kwargs
  induction kwargs with
  | nil =>
    intro st flags st' flags' hv h
    simp only [bindKw, List.foldlM] at h
    cases h
    exact frameKept_rfl
  | cons kv rest ih =>
    intro st flags st' flags' hv h
    simp only [bindKw, List.foldlM, Option.bind_eq_bind] at h
    obtain ⟨sf1, hsf1, h⟩ := bindInv h
    have hstep : FrameKept voi st sf1.1 := by
      split at hsf1
      · cases hsf1
        exact frameKept_rfl
      · split at hsf1
        · cases hsf1
          exact frameKept_rfl
        · obtain ⟨s2, hs2, hsf1⟩ := bindInv hsf1
          cases hsf1
          exact ctxSet_frame hv hs2
    have hv1 : sf1.1.ctxValues execCid = some voi := by
      rw [frameKept_of_ctxs_objects hstep]
      exact hv
    have hrest : bindKw sf1.1 execCid params sf1.2 rest =
        some (st', flags') := by
      simpa [bindKw] using h
    exact hstep.trans (ih sf1.1 sf1.2 st' flags' hv1 hrest)

/-- Default binding evaluates each unbound parameter's default — a pure
expression — in the definition context and writes the result into the
execution frame's values object. -/
theorem bindDefaultsF_frame {execCid defCtx voi : Nat} :
    ∀ (f : Nat) (lst : List ((String × Option Exp) × Bool)) (st st' : Store),
    st.ctxValues execCid = some voi →
    (∀ pe ∈ lst, pe.1.2.elim true pureB = true) →
    bindDefaultsF f st execCid defCtx lst = some st' →
    FrameKept voi st st' := by
  intro f
  induction f with
  | zero =>
    intro lst st st' _ _ h
    simp only [bindDefaultsF] at h
    cases h
  | succ f ih =>
    intro lst st st' hv hp h
    cases lst with
    | nil =>
      simp only [bindDefaultsF] at h
      cases h
      exact frameKept_rfl
    | cons pe rest =>
      rcases pe with ⟨p, wasSet⟩
      simp only [bindDefaultsF, Option.bind_eq_bind] at h
      split at h
      · simp only [Option.pure_def, Option.some_bind] at h
        exact ih rest st st' hv (fun q hq => hp q (by simp [hq])) h
      · split at h
        · rename_i d hd
          obtain ⟨pv, hpv, h⟩ := bindInv h
          obtain ⟨s1, hs1, h⟩ := bindInv h
          have hpure : pureB d = true := by
            have := hp (p, wasSet) (by simp)
            simpa [hd] using this
          obtain ⟨ho, hc⟩ := (evalF_pure_frame f).1 st defCtx d pv.1
            pv.2 hpure hpv
          have hvp : pv.1.ctxValues execCid = some voi := by
            simp only [Store.ctxValues, hc]
            simpa only [Store.ctxValues] using hv
          have hstep : FrameKept voi st s1 :=
            (frameKept_of_eq ho hc).trans (ctxSet_frame hvp hs1)
          have hv1 : s1.ctxValues execCid = some voi := by
            rw [frameKept_of_ctxs_objects hstep]
            exact hv
          exact hstep.trans (ih rest s1 st' hv1
            (fun q hq => hp q (by simp [hq])) h)
        · obtain ⟨s1, hs1, h⟩ := bindInv h
          have hstep : FrameKept voi st s1 := ctxSet_frame hv hs1
          have hv1 : s1.ctxValues execCid = some voi := by
            rw [frameKept_of_ctxs_objects hstep]
            exact hv
          exact hstep.trans (ih rest s1 st' hv1
            (fun q hq => hp q (by simp [hq])) h)

/-- C8.  Macro hygiene: a macro call renders its body in a fresh child of
the definition-site context, whose values object is freshly allocated;
for a body made of the hygienic constructs (plain `set`, text, emitted
pure expressions, sequences, loop controls) and pure parameter defaults,
every object that existed before the call — in particular every scope of
the caller's environment chain — is unchanged after the call, so
variables set inside the macro body are not visible in the caller's
scope. -/
theorem c8_macro_hygiene (f : Nat) (st : Store) (callerCid cl : Nat)
    (name : String) (params : List (String × Option Exp)) (body : Exp)
    (defCtx : Nat) (a : ArgsV) (st' : Store) (ret : Val)
    (hcl : st.closures.get? cl = some (.mcr name params body defCtx))
    (hbody : hygB body = true)
    (hdef : params.all (fun p => p.2.elim true pureB) = true)
    (h : applyClosureF f st callerCid cl a = some (st', ret)) :
    ∀ oid, oid < st.objects.length →
      st'.objects.get? oid = st.objects.get? oid := by
  intro oid hoid
  cases f with
  | zero =>
    simp only [applyClosureF] at h
    cases h
  | succ f =>
    simp only [applyClosureF, Option.bind_eq_bind] at h
    obtain ⟨c, hc, h⟩ := bindInv h
    rw [hcl] at hc
    cases hc
    simp only [Store.ctxMake, Store.allocObj] at h
    set n0 := st.objects.length with hn0
    set st1 : Store := { st with
      objects := st.objects ++ [[]],
      ctxs := st.ctxs ++ [⟨n0, some defCtx⟩] } with hst1
    have hv1 : st1.ctxValues st.ctxs.length = some n0 := by
      simp only [Store.ctxValues, hst1]
      rw [List.get?_concat_length]
      rfl
    obtain ⟨p2, hp2, h⟩ := bindInv h
    have hf1 : FrameKept n0 st1 p2.1 := bindPositional_frame hv1 hp2
    have hv2 : p2.1.ctxValues st.ctxs.length = some n0 := by
      rw [frameKept_of_ctxs_objects hf1]
      exact hv1
    obtain ⟨p3, hp3, h⟩ := bindInv h
    have hf2 : FrameKept n0 p2.1 p3.1 := bindKw_frame _ _ _ _ _ hv2 hp3
    have hv3 : p3.1.ctxValues st.ctxs.length = some n0 := by
      rw [frameKept_of_ctxs_objects hf2]
      exact hv2
    obtain ⟨s4, hs4, h⟩ := bindInv h
    have hf3 : FrameKept n0 p3.1 s4 := by
      refine bindDefaultsF_frame f _ p3.1 s4 hv3 ?_ hs4
      intro pe hpe
      have hm := List.of_mem_zip hpe
      have := List.all_eq_true.mp hdef pe.1 hm.1
      simpa using this
    have hv4 : s4.ctxValues st.ctxs.length = some n0 := by
      rw [frameKept_of_ctxs_objects hf3]
      exact hv3
    obtain ⟨r5, hr5, h⟩ := bindInv h
    have hf4 : FrameKept n0 s4 r5.1 :=
      (renderF_hyg_frame f).1 s4 st.ctxs.length body r5.1 r5.2.1 r5.2.2
        n0 hbody hv4 hr5
    cases h
    have hfinal : FrameKept n0 st1 r5.1 :=
      hf1.trans (hf2.trans (hf3.trans hf4))
    have hne : oid ≠ n0 := by omega
    rw [hfinal.2.2 oid hne]
    simp only [hst1]
    rw [List.get?_eq_getElem?, List.get?_eq_getElem?]
    rw [List.getElem?_append, if_pos hoid]

/-- A caller environment holding `y`, and a macro `m` whose body sets `x`
to 1. -/
def c8store : Store :=
  { arrays := [],
    objects := [[("y", .prim (.jint 9))]],
    closures := [.mcr "m" [] (.setVar "" ["x"] (.lit (.jint 1))) 0],
    ctxs := [⟨0, none⟩] }

/-- Calling the macro `m` of `c8store` succeeds and leaves the caller's
values object (object 0) exactly as it was: the `x` set inside the body
never reaches the caller's scope. -/
theorem c8_macro_witness :
    ∃ st' ret, applyClosureF 20 c8store 0 0 ⟨[], []⟩ = some (st', ret) ∧
      st'.objects.get? 0 = c8store.objects.get? 0 := by
  obtain ⟨st', ret, hEq⟩ :
      ∃ st' ret, applyClosureF 20 c8store 0 0 ⟨[], []⟩ = some (st', ret) :=
    ⟨_, _, rfl⟩
  refine ⟨st', ret, hEq, ?_⟩
  exact c8_macro_hygiene 20 c8store 0 0 "m" []
    (.setVar "" ["x"] (.lit (.jint 1))) 0 ⟨[], []⟩ st' ret rfl rfl rfl hEq
    0 (by decide)

end Minja
